import Mathlib

/-! The ThinkAI process bridge.

A shallow embedding of `server/internal/services/thinkai.go`: the service record, the
result cache, the counting semaphore, the pool of response records, the per-call reader
of the worker's output stream, and `Call`, `Initialize`, `Shutdown`. The last section of
the definitions embeds the rate limiter of `server/internal/middleware/middleware.go`.

Library calls are embedded by what they do to the values the service handles:

* `encoding/json`: `Marshal` writes map entries sorted by key and fails on a value that has
  no JSON form; `Unmarshal` into an existing record assigns the fields whose key occurs in
  the line and leaves every other field as it was.
* `sync.Pool`: `Get` hands out some record that was `Put` earlier, or a new one; which of
  them is not decided by the program, so the choice is an input of the embedding.
* `go-cache`: a map from keys to items with an absolute expiry, `0` meaning none.
* `x/sync/semaphore`: a counter `cur` bounded by `size`.

Everything a call observes from outside (the clock, the lines the worker emits, whether
the context is cancelled) is gathered in `CallEnv`.
-/

namespace ThinkAI

/-! ## Values and their JSON text -/

/-- A value held in an `interface{}`: `null` is Go's `nil`, `raw` is any value given by its
compact JSON text (a fractional number, an array, an object), `unsupported` is a Go value
`json.Marshal` rejects (a channel, a function, a NaN), with the text of the rejection. -/
inductive JVal where
  | null
  | bool (b : Bool)
  | num (n : Int)
  | str (s : String)
  | raw (json : String)
  | unsupported (why : String)
  deriving DecidableEq, Repr

/-- The double quote character. -/
def quoteMark : Char := Char.ofNat 34

/-- The backslash character. -/
def backslash : Char := Char.ofNat 92

/-- Lower-case hexadecimal digit. -/
def hexDigit (n : Nat) : Char := "0123456789abcdef".data.getD n '0'

/-- The six characters of a `\u00XX` escape. -/
def unicodeEscape (n : Nat) : List Char :=
  [backslash, 'u', hexDigit (n / 4096 % 16), hexDigit (n / 256 % 16),
    hexDigit (n / 16 % 16), hexDigit (n % 16)]

/-- How `json.Marshal` writes one character of a string (HTML escaping on, the default). -/
def escapeChar (c : Char) : List Char :=
  if c = quoteMark then [backslash, quoteMark]
  else if c = backslash then [backslash, backslash]
  else if c = Char.ofNat 10 then [backslash, 'n']
  else if c = Char.ofNat 13 then [backslash, 'r']
  else if c = Char.ofNat 9 then [backslash, 't']
  else if c.toNat < 32 ∨ c = '<' ∨ c = '>' ∨ c = '&' ∨ c.toNat = 8232 ∨ c.toNat = 8233 then
    unicodeEscape c.toNat
  else [c]

/-- A JSON string literal. -/
def quote (s : String) : String :=
  String.mk ([quoteMark] ++ (s.data.map escapeChar).flatten ++ [quoteMark])

/-- The text `json.Marshal` writes for a value, or the error it reports. -/
def encodeValue : JVal → Except String String
  | .null => .ok "null"
  | .bool true => .ok "true"
  | .bool false => .ok "false"
  | .num n => .ok (toString n)
  | .str s => .ok (quote s)
  | .raw json => .ok json
  | .unsupported why => .error why

/-- The entries of a non-nil `map[string]interface{}`, in the order they were inserted. -/
abbrev Params := List (String × JVal)

/-- Byte-wise order of the keys, the order `json.Marshal` sorts a map by. -/
def keyLE (a b : String × JVal) : Prop := a.1.data ≤ b.1.data

instance : DecidableRel keyLE := fun a b => inferInstanceAs (Decidable (a.1.data ≤ b.1.data))

/-- The members of a JSON object, each `"key":value`, in the order given. -/
def encodeMembers : List (String × JVal) → Except String (List String)
  | [] => .ok []
  | (k, v) :: rest =>
    match encodeValue v with
    | .error e => .error e
    | .ok text =>
      match encodeMembers rest with
      | .error e => .error e
      | .ok texts => .ok ((quote k ++ ":" ++ text) :: texts)

/-- What `json.Marshal` does with a non-nil map: the members sorted by key, between braces. -/
def marshalParams (params : Params) : Except String String :=
  match encodeMembers (List.insertionSort keyLE params) with
  | .error e => .error e
  | .ok texts => .ok ("\x7b" ++ String.intercalate "," texts ++ "\x7d")

/-! ## Wire records -/

/-- The record `ThinkRequest`. -/
structure ThinkRequest where
  ID : String
  Method : String
  Params : Params

/-- The record `ThinkError`. -/
structure ThinkError where
  Code : Int
  Message : String
  deriving DecidableEq, Repr

/-- The record `ThinkResponse`; `Error` is a pointer, `none` when nil. -/
structure ThinkResponse where
  ID : String
  Result : JVal
  Error : Option ThinkError
  deriving DecidableEq, Repr

/-- What `json.Marshal(req)` yields: the fields in declaration order. -/
def marshalRequest (req : ThinkRequest) : Except String String :=
  match marshalParams req.Params with
  | .error e => .error e
  | .ok paramsJSON =>
    .ok ("\x7b" ++ quote "id" ++ ":" ++ quote req.ID ++ "," ++ quote "method" ++ ":" ++
      quote req.Method ++ "," ++ quote "params" ++ ":" ++ paramsJSON ++ "\x7d")

/-- The `error` member of a response line. -/
inductive ErrorField where
  | absent
  | null
  | obj (code : Option Int) (message : Option String)
  deriving DecidableEq, Repr

/-- One line of the worker's output as `json.Unmarshal` sees it: the error it reports, if
any, and the members it finds for the fields of `ThinkResponse` (`none`: no such key). -/
structure Line where
  parseErr : Option String
  id : Option String
  result : Option JVal
  error : ErrorField
  deriving DecidableEq, Repr

/-- The pointer field `Error` after decoding a line into a record that held `old`. -/
def unmarshalError (f : ErrorField) (old : Option ThinkError) : Option ThinkError :=
  match f with
  | .absent => old
  | .null => none
  | .obj code message =>
    let target := old.getD { Code := 0, Message := "" }
    some { Code := code.getD target.Code, Message := message.getD target.Message }

/-- The record after `json.Unmarshal(line, resp)`: members present in the line are assigned,
the other fields of `resp` keep their value. -/
def unmarshal (l : Line) (resp : ThinkResponse) : ThinkResponse :=
  { ID := l.id.getD resp.ID
    Result := l.result.getD resp.Result
    Error := unmarshalError l.error resp.Error }

/-! ## The pool of response records -/

/-- The records held by `responsePool`, most recently `Put` first. -/
abbrev Pool := List ThinkResponse

/-- What `New` of `responsePool` returns: `&ThinkResponse{}`. -/
def newResponse : ThinkResponse := { ID := "", Result := .null, Error := none }

/-- The call `responsePool.Get()`: with `some i` the pooled record at position `i` is taken
out, with `none` (or no such record) a new one is made. -/
def poolGet (choice : Option Nat) (pool : Pool) : ThinkResponse × Pool :=
  match choice with
  | none => (newResponse, pool)
  | some i =>
    match pool.get? i with
    | some resp => (resp, pool.eraseIdx i)
    | none => (newResponse, pool)

/-- The call `responsePool.Put(resp)`. -/
def poolPut (resp : ThinkResponse) (pool : Pool) : Pool := resp :: pool

/-! ## The result cache -/

/-- An item of the cache; `Expiration` is an absolute time in nanoseconds, `0` for none. -/
structure Item where
  Object : JVal
  Expiration : Int
  deriving DecidableEq, Repr

/-- The cache: its default time to live and its items. -/
structure GoCache where
  defaultExpiration : Int
  items : String → Option Item

/-- The constructor `cache.New(ttl, _)`: a time to live of `0` stands for no expiry. -/
def GoCache.New (ttl : Int) : GoCache :=
  { defaultExpiration := if ttl = 0 then -1 else ttl, items := fun _ => none }

/-- Whether an item is expired when the clock reads `now`. -/
def Item.expired (item : Item) (now : Int) : Prop := 0 < item.Expiration ∧ item.Expiration < now

instance (item : Item) (now : Int) : Decidable (item.expired now) :=
  inferInstanceAs (Decidable (_ ∧ _))

/-- The lookup `cache.Get(k)` at clock `now`: the object of an unexpired item. -/
def GoCache.Get (c : GoCache) (k : String) (now : Int) : Option JVal :=
  match c.items k with
  | none => none
  | some item => if item.expired now then none else some item.Object

/-- The update `cache.Set(k, x, cache.DefaultExpiration)` at clock `now`. -/
def GoCache.Set (c : GoCache) (k : String) (x : JVal) (now : Int) : GoCache :=
  let e : Int := if 0 < c.defaultExpiration then now + c.defaultExpiration else 0
  { c with items := fun k' => if k' = k then some { Object := x, Expiration := e } else c.items k' }

/-! ## The semaphore -/

/-- The weighted semaphore: `cur` permits out of `size` are held. -/
structure Weighted where
  size : Nat
  cur : Nat
  deriving DecidableEq, Repr

/-- Permits that can still be acquired. -/
def Weighted.available (w : Weighted) : Nat := w.size - w.cur

/-- The state after a successful `Acquire(ctx, 1)`. -/
def Weighted.Acquire (w : Weighted) : Weighted := { w with cur := w.cur + 1 }

/-- The state after `Release(1)`. -/
def Weighted.Release (w : Weighted) : Weighted := { w with cur := w.cur - 1 }

/-! ## The service -/

/-- The fields of `ThinkAIService` that `Call`, `Initialize` and `Shutdown` read or write.
The request pool is left out: every field of a pooled request is assigned before use. -/
structure ThinkAIService where
  cache : GoCache
  responsePool : Pool
  semaphore : Weighted
  activeRequests : Int
  initialized : Bool
  shutdownChClosed : Bool

/-- The constructor `NewThinkAIService`, `cacheTTL` being the configured `cache.ttl`
(`0` when it is missing or does not parse). -/
def NewThinkAIService (cacheTTL : Int) : ThinkAIService :=
  { cache := GoCache.New cacheTTL
    responsePool := []
    semaphore := { size := 100, cur := 0 }
    activeRequests := 0
    initialized := false
    shutdownChClosed := false }

/-- The method `GetActiveRequests`. -/
def GetActiveRequests (s : ThinkAIService) : Int := s.activeRequests

/-- The method `generateCacheKey`: the marshalling error is dropped, leaving empty text. -/
def generateCacheKey (method : String) (params : Params) : String :=
  let paramsJSON := match marshalParams params with
    | .ok text => text
    | .error _ => ""
  method ++ ":" ++ paramsJSON

/-- The method `isCacheable`. -/
def isCacheable (method : String) : Bool :=
  if method = "get_intelligence" then true
  else if method = "search_knowledge" then true
  else if method = "get_consciousness_state" then true
  else false

/-- The two values of `ctx.Err()` once the context is done. -/
inductive CtxErr where
  | canceled
  | deadlineExceeded
  deriving DecidableEq, Repr

/-- The message of a context error. -/
def CtxErr.text : CtxErr → String
  | .canceled => "context canceled"
  | .deadlineExceeded => "context deadline exceeded"

/-- An event that wins the `select` of `Call` before the reader has sent anything. -/
inductive Interrupt where
  | ctxDone (err : CtxErr)
  | timer
  deriving DecidableEq, Repr

/-- What one `Call` observes from outside the service. -/
structure CallEnv where
  /-- clock read inside `cache.Get` -/
  getClock : Int
  /-- error of `semaphore.Acquire`: the context was done before a permit was granted -/
  acquireErr : Option CtxErr
  /-- the value of `time.Now().UnixNano()` -/
  idClock : Int
  /-- error of `stdin.Write` -/
  writeErr : Option String
  /-- the lines the scanner of this call yields, in order -/
  stdout : List Line
  /-- the value of `scanner.Err()` once `Scan` returns false -/
  scanErr : Option String
  /-- the choices of `responsePool.Get`, one for each line read -/
  poolChoices : List (Option Nat)
  /-- the context or the 30 second timer firing before the reader sends -/
  interrupt : Option Interrupt
  /-- clock read inside `cache.Set` -/
  setClock : Int

/-- What the reader goroutine leaves on its two channels. -/
inductive ReaderResult where
  | response (resp : ThinkResponse)
  | error (err : String)
  | silent
  deriving DecidableEq, Repr

/-- One pass through the loop body of the reader goroutine: a record is taken from the
pool and the line decoded into it; a decoding error is sent on `errorCh`, a record whose
`ID` equals `reqID` is sent on `responseCh`, any other record goes back to the pool and
nothing is sent (`none`). -/
def readLine (reqID : String) (l : Line) (choice : Option Nat) (pool : Pool) :
    Option ReaderResult × Pool :=
  let got := poolGet choice pool
  let resp := unmarshal l got.1
  match l.parseErr with
  | some e => (some (.error ("failed to unmarshal response: " ++ e)), poolPut resp got.2)
  | none =>
    if resp.ID = reqID then (some (.response resp), got.2)
    else (none, poolPut resp got.2)

/-- The reader goroutine of `Call`, alone on the output stream: it loops over the lines
until it has sent something; when the lines end, `scanner.Err()` is sent if there is one. -/
def reader (reqID : String) (scanErr : Option String) :
    List Line → List (Option Nat) → Pool → ReaderResult × Pool
  | [], _, pool =>
    match scanErr with
    | some e => (.error ("scanner error: " ++ e), pool)
    | none => (.silent, pool)
  | l :: rest, choices, pool =>
    match readLine reqID l choices.head?.join pool with
    | (some rr, pool1) => (rr, pool1)
    | (none, pool1) => reader reqID scanErr rest choices.tail pool1

/-- An effect of `Call` on the semaphore, the counter or the worker's input. -/
inductive Event where
  | acquire
  | release
  | add (delta : Int)
  | write (line : String) (ok : Bool)
  deriving DecidableEq, Repr

/-- What a part of `Call` returns: the two results, the service afterwards, the effects. -/
structure CallResult where
  result : JVal
  err : Option String
  state : ThinkAIService
  trace : List Event

/-- The `select` of `Call` once the request is written, `rr` being what the reader sends. -/
def await (s : ThinkAIService) (env : CallEnv) (method cacheKey : String)
    (rr : ReaderResult) : CallResult :=
  match env.interrupt with
  | some (.ctxDone e) => { result := .null, err := some e.text, state := s, trace := [] }
  | some .timer => { result := .null, err := some "request timeout", state := s, trace := [] }
  | none =>
    match rr with
    | .silent => { result := .null, err := some "request timeout", state := s, trace := [] }
    | .error e => { result := .null, err := some e, state := s, trace := [] }
    | .response resp =>
      let s1 := { s with responsePool := poolPut resp s.responsePool }
      match resp.Error with
      | some e =>
        { result := .null, err := some ("ThinkAI error: " ++ e.Message), state := s1, trace := [] }
      | none =>
        let s2 := if isCacheable method then
            { s1 with cache := s1.cache.Set cacheKey resp.Result env.setClock }
          else s1
        { result := resp.Result, err := none, state := s2, trace := [] }

/-- The request of a call: its id is the clock reading printed in decimal. -/
def buildRequest (env : CallEnv) (method : String) (params : Params) : ThinkRequest :=
  { ID := toString env.idClock, Method := method, Params := params }

/-- The body of `Call` between the deferred calls: from building the request on. -/
def callBody (s : ThinkAIService) (env : CallEnv) (method : String) (params : Params)
    (cacheKey : String) : CallResult :=
  let req := buildRequest env method params
  if s.initialized = false then
    { result := .null, err := some "service not initialized", state := s, trace := [] }
  else
    match marshalRequest req with
    | .error e =>
      { result := .null, err := some ("failed to marshal request: " ++ e), state := s, trace := [] }
    | .ok reqJSON =>
      match env.writeErr with
      | some e =>
        { result := .null, err := some ("failed to write request: " ++ e), state := s,
          trace := [.write reqJSON false] }
      | none =>
        let read := reader req.ID env.scanErr env.stdout env.poolChoices s.responsePool
        let out := await { s with responsePool := read.2 } env method cacheKey read.1
        { out with trace := .write reqJSON true :: out.trace }

/-- The method `Call`. `none` stands for a call that never returns: no permit is free, no
other call is there to release one, and the context is never done. -/
def Call (s : ThinkAIService) (env : CallEnv) (method : String) (params : Params) :
    Option CallResult :=
  let cacheKey := generateCacheKey method params
  match s.cache.Get cacheKey env.getClock with
  | some cached => some { result := cached, err := none, state := s, trace := [] }
  | none =>
    match env.acquireErr with
    | some e =>
      some { result := .null, err := some ("failed to acquire semaphore: " ++ e.text),
             state := s, trace := [] }
    | none =>
      if s.semaphore.size ≤ s.semaphore.cur then none
      else
        let s1 := { s with semaphore := s.semaphore.Acquire }
        let s2 := { s1 with activeRequests := s1.activeRequests + 1 }
        let out := callBody s2 env method params cacheKey
        let s3 := { out.state with activeRequests := out.state.activeRequests + (-1) }
        let s4 := { s3 with semaphore := s3.semaphore.Release }
        some { result := out.result, err := out.err, state := s4,
               trace := [.acquire, .add 1] ++ out.trace ++ [.add (-1), .release] }

/-! ## Initialize and Shutdown -/

/-- The step of `Initialize` that fails, with the error it meets. -/
inductive StartFailure where
  | stdinPipe (e : String)
  | stdoutPipe (e : String)
  | stderrPipe (e : String)
  | start (e : String)
  deriving DecidableEq, Repr

/-- The error `Initialize` returns for a failing step. -/
def StartFailure.text : StartFailure → String
  | .stdinPipe e => "failed to create stdin pipe: " ++ e
  | .stdoutPipe e => "failed to create stdout pipe: " ++ e
  | .stderrPipe e => "failed to create stderr pipe: " ++ e
  | .start e => "failed to start Python process: " ++ e

/-- The method `Initialize`, `failure` being the step of the launch that fails, if any. -/
def Initialize (s : ThinkAIService) (failure : Option StartFailure) :
    ThinkAIService × Option String :=
  if s.initialized then (s, none)
  else
    match failure with
    | some f => (s, some f.text)
    | none => ({ s with initialized := true }, none)

/-- The method `Shutdown`; `none` stands for the panic of closing a closed channel. -/
def Shutdown (s : ThinkAIService) : Option (ThinkAIService × Option String) :=
  if s.initialized = false then some (s, none)
  else if s.shutdownChClosed then none
  else some ({ s with shutdownChClosed := true, initialized := false }, none)

/-! ## Several calls awaiting their responses at once

Each call past its write runs its own reader goroutine on the one output stream of the
worker. A schedule says which reader obtains the next line. -/

/-- The output stream shared by the readers of the outstanding calls, the pool, and for
each call what its reader has sent (`none` while it is still reading). -/
structure Readers where
  stdout : List Line
  pool : Pool
  sent : List (Option ReaderResult)

/-- The reader of call `i` obtains the next line of the stream, `ids` being the request
ids of the calls. Nothing happens when that reader has already sent or no line is left. -/
def Readers.step (ids : List String) (st : Readers) (turn : Nat × Option Nat) : Readers :=
  match st.stdout, ids.get? turn.1, st.sent.get? turn.1 with
  | l :: rest, some reqID, some none =>
    let read := readLine reqID l turn.2 st.pool
    { stdout := rest, pool := read.2, sent := st.sent.set turn.1 read.1 }
  | _, _, _ => st

/-- The readers run under a schedule: each turn names the reader that obtains the next
line and the choice its `responsePool.Get` makes. -/
def runReaders (ids : List String) (schedule : List (Nat × Option Nat)) (stdout : List Line)
    (pool : Pool) : Readers :=
  schedule.foldl (Readers.step ids) { stdout := stdout, pool := pool, sent := ids.map fun _ => none }

/-- What each of the outstanding calls returns once the worker has emitted `stdout` and
nothing more: the `select` of call `i` gets what its own reader sent, and the timer
otherwise. A call is given by its environment, its method and its parameters. -/
def concurrentCalls (s : ThinkAIService) (calls : List (CallEnv × String × Params))
    (schedule : List (Nat × Option Nat)) (stdout : List Line) : List (JVal × Option String) :=
  let ids := calls.map fun c => toString c.1.idClock
  let final := runReaders ids schedule stdout s.responsePool
  (calls.zip final.sent).map fun p =>
    let out := await { s with responsePool := final.pool } p.1.1 p.1.2.1
      (generateCacheKey p.1.2.1 p.1.2.2) (p.2.getD .silent)
    (out.result, out.err)

/-! ## Admission of concurrent calls

The steps of `Call` that touch the semaphore and the request counter, taken one at a time
by any number of calls in any order. -/

/-- Where a call stands.
`entry`: before the cache lookup; `waiting`: cache miss, inside `semaphore.Acquire`;
`admitted`: `Acquire` returned nil and `Release` is deferred; `counted`: after
`activeRequests.Add(1)`, up to the write to the worker; `written`: the request is
written, the call awaits its `select`; `uncounted`: the body has returned and the deferred
`activeRequests.Add(-1)` has run; `returned`: the deferred `Release` has run, or the call
returned without a permit. -/
inductive Pc where
  | entry
  | waiting
  | admitted
  | counted
  | written
  | uncounted
  | returned
  deriving DecidableEq, Repr

/-- The calls that have acquired a permit and not yet released it. -/
def Pc.holdsPermit : Pc → Bool
  | .admitted | .counted | .written | .uncounted => true
  | _ => false

/-- The calls between `Add(1)` and `Add(-1)`. -/
def Pc.isCounted : Pc → Bool
  | .counted | .written => true
  | _ => false

/-- One step of one call, `i` being the position of the call. -/
inductive Action where
  /-- a new invocation of `Call` -/
  | enter
  /-- the cache lookup finds the key: return -/
  | cacheHit (i : Nat)
  /-- the cache lookup misses: go on to `Acquire` -/
  | cacheMiss (i : Nat)
  /-- the call `Acquire` returns the context's error: return -/
  | acquireFail (i : Nat)
  /-- the call `Acquire` returns nil -/
  | acquire (i : Nat)
  /-- the call `activeRequests.Add(1)` -/
  | addOne (i : Nat)
  /-- the call `stdin.Write` succeeds -/
  | write (i : Nat)
  /-- the body returns, on any path, and `activeRequests.Add(-1)` runs -/
  | leave (i : Nat)
  /-- the deferred `semaphore.Release(1)` runs -/
  | release (i : Nat)
  deriving DecidableEq, Repr

/-- The semaphore, the counter, and where each call stands. -/
structure Sys where
  semaphore : Weighted
  activeRequests : Int
  calls : List Pc
  deriving DecidableEq, Repr

/-- The system of a service just made by `NewThinkAIService`: no call yet. -/
def Sys.init : Sys :=
  { semaphore := (NewThinkAIService 0).semaphore
    activeRequests := (NewThinkAIService 0).activeRequests
    calls := [] }

/-- Moves call `i` from `src` to `dst` if it stands at `src`. -/
def Sys.move (s : Sys) (i : Nat) (src dst : Pc) : Option Sys :=
  if s.calls.get? i = some src then some { s with calls := s.calls.set i dst } else none

/-- One step; `none` when the step cannot be taken in this state. `Acquire` returns nil
only when a permit is free. -/
def Sys.step (s : Sys) : Action → Option Sys
  | .enter => some { s with calls := s.calls ++ [.entry] }
  | .cacheHit i => s.move i .entry .returned
  | .cacheMiss i => s.move i .entry .waiting
  | .acquireFail i => s.move i .waiting .returned
  | .acquire i =>
    if s.semaphore.cur < s.semaphore.size then
      Sys.move { s with semaphore := s.semaphore.Acquire } i .waiting .admitted
    else none
  | .addOne i => Sys.move { s with activeRequests := s.activeRequests + 1 } i .admitted .counted
  | .write i => s.move i .counted .written
  | .leave i =>
    match Sys.move { s with activeRequests := s.activeRequests + (-1) } i .counted .uncounted with
    | some t => some t
    | none => Sys.move { s with activeRequests := s.activeRequests + (-1) } i .written .uncounted
  | .release i => Sys.move { s with semaphore := s.semaphore.Release } i .uncounted .returned

/-- The state after a sequence of steps, if each can be taken. -/
def Sys.run (s : Sys) : List Action → Option Sys
  | [] => some s
  | a :: rest =>
    match s.step a with
    | some t => t.run rest
    | none => none

/-- The number of calls holding a permit. -/
def Sys.holders (s : Sys) : Nat := s.calls.countP Pc.holdsPermit

/-- The method `GetActiveRequests`, on the system of concurrent calls. -/
def Sys.GetActiveRequests (s : Sys) : Int := s.activeRequests

/-- What every reachable state of the admission system satisfies: the semaphore has
size 100 and holds as many permits as there are calls between `Acquire` and `Release`,
and the counter equals the number of calls between `Add(1)` and `Add(-1)`. -/
structure Sys.Inv (s : Sys) : Prop where
  size : s.semaphore.size = 100
  cur : s.semaphore.cur = s.calls.countP Pc.holdsPermit
  bound : s.semaphore.cur ≤ 100
  active : s.activeRequests = ((s.calls.countP Pc.isCounted : Nat) : Int)

/-! ## Calls that reach their select -/

/-- The call gets as far as its `select`, and neither the context nor the timer fires
before the reader sends: the cache misses, a permit is free and granted, the service is
initialised, the request marshals and is written. -/
def Undisturbed (s : ThinkAIService) (env : CallEnv) (method : String) (params : Params) : Prop :=
  s.cache.Get (generateCacheKey method params) env.getClock = none ∧
  env.acquireErr = none ∧ s.semaphore.cur < s.semaphore.size ∧
  s.initialized = true ∧
  (marshalRequest (buildRequest env method params)).toBool = true ∧
  env.writeErr = none ∧ env.interrupt = none

instance (s : ThinkAIService) (env : CallEnv) (method : String) (params : Params) :
    Decidable (Undisturbed s env method params) :=
  inferInstanceAs (Decidable (_ ∧ _ ∧ _ ∧ _ ∧ _ ∧ _ ∧ _))

/-- A well-formed response line that answers another request than `reqID`. -/
def Line.foreign (l : Line) (reqID : String) : Prop :=
  l.parseErr = none ∧ l.id.isSome = true ∧ l.id ≠ some reqID

instance (l : Line) (reqID : String) : Decidable (l.foreign reqID) :=
  inferInstanceAs (Decidable (_ ∧ _ ∧ _))

/-! ## Sequences of operations on one service -/

/-- An operation a client performs on the service, with what it observes. -/
inductive Op where
  | call (env : CallEnv) (method : String) (params : Params)
  | start (failure : Option StartFailure)
  | stop

/-- The service after one operation that completes. -/
def applyOp (s : ThinkAIService) : Op → Option ThinkAIService
  | .call env method params => (Call s env method params).map fun r => r.state
  | .start failure => some (Initialize s failure).1
  | .stop => (Shutdown s).map fun r => r.1

/-- The service after a sequence of operations, each completing before the next starts. -/
def runOps (s : ThinkAIService) : List Op → Option ThinkAIService
  | [] => some s
  | op :: rest =>
    match applyOp s op with
    | some t => runOps t rest
    | none => none

/-- The number of requests written to the worker among the effects of a call. -/
def writes (trace : List Event) : Nat :=
  trace.countP fun e => match e with
    | .write _ _ => true
    | _ => false

/-! ## Decimal numerals -/

/-- The number a list of decimal digits denotes. -/
def digitsValue (cs : List Char) : Nat := cs.foldl (fun a c => a * 10 + (c.toNat - 48)) 0

/-! ## Sample inputs -/

/-- A response line `{"id": id, "result": r}`. -/
def resultLine (id : String) (r : JVal) : Line :=
  { parseErr := none, id := some id, result := some r, error := .absent }

/-- A response line `{"id": id, "error": {"code": c, "message": m}}`. -/
def errorLine (id : String) (c : Int) (m : String) : Line :=
  { parseErr := none, id := some id, result := none, error := .obj (some c) (some m) }

/-- A response line `{"id": id}`, with neither a result nor an error member. -/
def bareLine (id : String) : Line :=
  { parseErr := none, id := some id, result := none, error := .absent }

/-- A line that is not JSON. -/
def garbageLine : Line :=
  { parseErr := some "invalid character", id := none, result := none, error := .absent }

/-- A service made with no cache expiry and initialised. -/
def liveService : ThinkAIService := (Initialize (NewThinkAIService 0) none).1

/-- A quiet environment: clock at 1000, nothing fails, the worker emits `stdout`. -/
def quietEnv (stdout : List Line) : CallEnv :=
  { getClock := 1000, acquireErr := none, idClock := 1000, writeErr := none, stdout := stdout,
    scanErr := none, poolChoices := [], interrupt := none, setClock := 1000 }

/-- A service made with a cache time to live of 5000 and initialised. -/
def timedService : ThinkAIService := (Initialize (NewThinkAIService 5000) none).1

/-- Two parameter maps with the same entries inserted in opposite orders. -/
def paramsAB : Params := [("a", .num 1), ("b", .num 2)]

/-- The entries of `paramsAB`, inserted the other way round. -/
def paramsBA : Params := [("b", .num 2), ("a", .num 1)]

/-- The request line written for `get_intelligence` with `paramsAB` at clock 1000. -/
def sampleRequestLine : String :=
  match marshalRequest (buildRequest (quietEnv []) "get_intelligence" paramsAB) with
  | .ok text => text
  | .error _ => ""

/-- What `Call` returns on `timedService` for `get_intelligence` when the worker answers 42. -/
def sampleFirst : CallResult :=
  { result := .num 42
    err := none
    state :=
      { timedService with
        cache := timedService.cache.Set (generateCacheKey "get_intelligence" paramsAB) (.num 42) 1000
        responsePool := [{ ID := "1000", Result := .num 42, Error := none }] }
    trace := [.acquire, .add 1, .write sampleRequestLine true, .add (-1), .release] }

/-- A sequence of operations going through every way `Call` returns: success, success of
a cacheable method, cache hit, timer, cancellation, failed acquisition, write failure,
scanner error, remote error, decoding error, marshal failure, service not initialised. -/
def sampleOps : List Op :=
  [.start none,
   .call (quietEnv [resultLine "7" (.num 1), resultLine "1000" (.num 42)]) "think" [],
   .call (quietEnv [resultLine "1000" (.num 42)]) "get_intelligence" [],
   .call (quietEnv []) "get_intelligence" [],
   .call { quietEnv [] with interrupt := some .timer } "think" [],
   .call { quietEnv [] with interrupt := some (.ctxDone .canceled) } "think" [],
   .call { quietEnv [] with acquireErr := some .deadlineExceeded } "think" [],
   .call { quietEnv [] with writeErr := some "broken pipe" } "think" [],
   .call { quietEnv [] with scanErr := some "file already closed" } "think" [],
   .call (quietEnv [errorLine "1000" 1 "boom"]) "think" [],
   .call (quietEnv [garbageLine]) "think" [],
   .call (quietEnv []) "think" [("x", .unsupported "json: unsupported value: NaN")],
   .stop,
   .call (quietEnv []) "think" []]

/-- The service after `sampleOps` on a new service. -/
def sampleFinal : ThinkAIService :=
  { NewThinkAIService 0 with
    cache := (NewThinkAIService 0).cache.Set (generateCacheKey "get_intelligence" []) (.num 42) 1000
    responsePool :=
      [{ ID := "", Result := .null, Error := none },
       { ID := "1000", Result := .null, Error := some { Code := 1, Message := "boom" } },
       { ID := "1000", Result := .num 42, Error := none },
       { ID := "1000", Result := .num 42, Error := none },
       { ID := "7", Result := .num 1, Error := none }]
    shutdownChClosed := true }

/-- Two calls enter; the first is admitted, counted, writes and leaves; the second is
admitted. -/
def sampleActions : List Action :=
  [.enter, .enter, .cacheMiss 0, .acquire 0, .cacheMiss 1, .addOne 0, .acquire 1, .write 0,
   .leave 0]

/-- The system after `sampleActions`. -/
def sampleSys : Sys :=
  { semaphore := { size := 100, cur := 2 }, activeRequests := 0, calls := [.uncounted, .admitted] }

/-! ## The rate limiter (`server/internal/middleware/middleware.go`) -/

/-- One minute, in nanoseconds. -/
def minute : Int := 60000000000

/-- The record `rateLimiter`: the cache of request counts, keyed by client IP. The mutex
is held from the lookup to the return of the next handler, so requests are handled one
after the other. -/
structure rateLimiter where
  requests : GoCache

/-- The limiter `RateLimiter` builds for its handler: `cache.New(1*time.Minute, _)`. The
cleanup of the cache removes expired items only, which `Get` already takes as absent. -/
def RateLimiter : rateLimiter := { requests := GoCache.New minute }

/-- A request as the limiter handles it: the client IP, and the clock as read inside
`requests.Get` and, if it comes to that, inside `requests.Set`. -/
structure Request where
  clientIP : String
  getClock : Int
  setClock : Int
  deriving DecidableEq, Repr

/-- What the handler does with a request: `c.Next()`, or `c.Abort()` after writing a status. -/
inductive Verdict where
  | next
  | abort (status : Nat)
  deriving DecidableEq, Repr

/-- The handler `RateLimiter` returns. `none` stands for the panic of the type assertion
`count.(int)` on a cached value that is not an int. -/
def rateLimiter.handle (rl : rateLimiter) (req : Request) : Option (rateLimiter × Verdict) :=
  match rl.requests.Get req.clientIP req.getClock with
  | none => some ({ requests := rl.requests.Set req.clientIP (.num 1) req.setClock }, .next)
  | some (.num requestCount) =>
    if requestCount ≥ 100 then some (rl, .abort 429)
    else
      some ({ requests := rl.requests.Set req.clientIP (.num (requestCount + 1)) req.setClock },
        .next)
  | some _ => none

/-- The handler on a sequence of requests, one after the other. -/
def rateLimiter.serve (rl : rateLimiter) : List Request → Option (rateLimiter × List Verdict)
  | [] => some (rl, [])
  | req :: rest =>
    match rl.handle req with
    | none => none
    | some (rl1, v) =>
      match rl1.serve rest with
      | none => none
      | some (rl2, vs) => some (rl2, v :: vs)

/-- The arrival times of the requests from `ip` that were passed to the next handler. -/
def passedAt (ip : String) : List Request → List Verdict → List Int
  | req :: reqs, v :: vs =>
    (if req.clientIP = ip ∧ v = .next then [req.getClock] else []) ++ passedAt ip reqs vs
  | _, _ => []

/-- Whether `t` lies in the interval of one minute that starts at `start`. -/
def inWindow (start t : Int) : Bool := decide (start ≤ t ∧ t ≤ start + minute)

/-- All clock readings of a sequence of requests, in the order they are made. -/
def clockReadings : List Request → List Int
  | [] => []
  | req :: rest => req.getClock :: req.setClock :: clockReadings rest

/-- What holds of the limiter between two requests, for the client `ip`: `old` are the
arrival times of its requests passed under earlier entries, `cur` those passed under the
entry now in the cache. -/
structure LimiterInv (rl : rateLimiter) (ip : String) (old cur : List Int) : Prop where
  ttl : rl.requests.defaultExpiration = minute
  ints : ∀ k item, rl.requests.items k = some item → ∃ n : Int, item.Object = .num n
  oldOK : ∀ start, old.countP (inWindow start) ≤ 100
  curLen : cur.length ≤ 100
  apart : ∀ o ∈ old, ∀ t ∈ cur, o + minute < t
  fresh : rl.requests.items ip = none → old = [] ∧ cur = []
  entry : ∀ item, rl.requests.items ip = some item →
    item.Object = .num (cur.length : Int) ∧ 1 ≤ cur.length ∧
      ∀ t ∈ old ++ cur, t + minute ≤ item.Expiration

/-- A burst of `n` requests from `ip`, all at clock `t`. -/
def burst (ip : String) (t : Int) (n : Nat) : List Request :=
  List.replicate n { clientIP := ip, getClock := t, setClock := t }

end ThinkAI

/-! # Properties -/

namespace ThinkAI

/-! ## What a call returns and leaves behind, path by path -/

theorem await_cases (s : ThinkAIService) (env : CallEnv) (method cacheKey : String)
    (rr : ReaderResult) :
    ((await s env method cacheKey rr).err ≠ none ∧
      (await s env method cacheKey rr).result = .null ∧
      (await s env method cacheKey rr).state.cache = s.cache ∧
      (await s env method cacheKey rr).trace = []) ∨
    (∃ resp, rr = .response resp ∧ env.interrupt = none ∧ resp.Error = none ∧
      (await s env method cacheKey rr).err = none ∧
      (await s env method cacheKey rr).result = resp.Result ∧
      (await s env method cacheKey rr).state.cache =
        (if isCacheable method = true then s.cache.Set cacheKey resp.Result env.setClock
         else s.cache) ∧
      (await s env method cacheKey rr).trace = []) := by
  unfold await
  split
  · left; simp
  · left; simp
  · rename_i hint
    split
    · left; simp
    · left; simp
    · rename_i resp
      split
      · left; simp
      · rename_i herr
        right
        refine ⟨resp, rfl, hint, herr, rfl, rfl, ?_, rfl⟩
        dsimp only
        split <;> rfl

theorem callBody_cases (s : ThinkAIService) (env : CallEnv) (method : String) (params : Params)
    (cacheKey : String) :
    ((callBody s env method params cacheKey).err ≠ none ∧
      (callBody s env method params cacheKey).result = .null ∧
      (callBody s env method params cacheKey).state.cache = s.cache ∧
      writes (callBody s env method params cacheKey).trace ≤ 1) ∨
    ((callBody s env method params cacheKey).err = none ∧
      (callBody s env method params cacheKey).state.cache =
        (if isCacheable method = true then
          s.cache.Set cacheKey (callBody s env method params cacheKey).result env.setClock
         else s.cache) ∧
      writes (callBody s env method params cacheKey).trace = 1) := by
  unfold callBody
  dsimp only
  split
  · left; simp [writes]
  · split
    · left; simp [writes]
    · split
      · left; simp [writes]
      · rename_i reqJSON _ _
        rcases await_cases { s with responsePool :=
            (reader (buildRequest env method params).ID env.scanErr env.stdout env.poolChoices
              s.responsePool).2 } env method cacheKey
            (reader (buildRequest env method params).ID env.scanErr env.stdout env.poolChoices
              s.responsePool).1 with h | ⟨resp, _, _, _, h1, h2, h3, h4⟩
        · left
          obtain ⟨h1, h2, h3, h4⟩ := h
          refine ⟨h1, h2, h3, ?_⟩
          dsimp only
          rw [h4]
          simp [writes]
        · right
          refine ⟨h1, ?_, ?_⟩
          · dsimp only
            rw [h3, h2]
          · dsimp only
            rw [h4]
            simp [writes]

theorem Call_cases (s : ThinkAIService) (env : CallEnv) (method : String) (params : Params)
    (r : CallResult) (h : Call s env method params = some r) :
    (s.cache.Get (generateCacheKey method params) env.getClock = some r.result ∧
      r.err = none ∧ r.state = s ∧ r.trace = []) ∨
    (s.cache.Get (generateCacheKey method params) env.getClock = none ∧
      r.err ≠ none ∧ r.result = .null ∧ r.state.cache = s.cache ∧ writes r.trace ≤ 1) ∨
    (s.cache.Get (generateCacheKey method params) env.getClock = none ∧
      r.err = none ∧
      r.state.cache =
        (if isCacheable method = true then
          s.cache.Set (generateCacheKey method params) r.result env.setClock
         else s.cache) ∧
      writes r.trace = 1) := by
  unfold Call at h
  dsimp only at h
  split at h
  · rename_i cached hget
    cases h
    left
    exact ⟨hget, rfl, rfl, rfl⟩
  · rename_i hget
    right
    split at h
    · cases h
      left
      exact ⟨hget, by simp, rfl, rfl, by simp [writes]⟩
    · split at h
      · cases h
      · cases h
        rcases callBody_cases
          { s with semaphore := s.semaphore.Acquire, activeRequests := s.activeRequests + 1 }
          env method params (generateCacheKey method params) with hb | hb
        · left
          obtain ⟨h1, h2, h3, h4⟩ := hb
          refine ⟨hget, h1, h2, h3, ?_⟩
          dsimp only
          simp only [writes, List.countP_append, List.countP_cons, List.countP_nil] at h4 ⊢
          simpa using h4
        · right
          obtain ⟨h1, h2, h3⟩ := hb
          refine ⟨hget, h1, h2, ?_⟩
          dsimp only
          simp only [writes, List.countP_append, List.countP_cons, List.countP_nil] at h3 ⊢
          simpa using h3

/-! ## The reader on a stream of lines -/

theorem readLine_foreign (reqID : String) (l : Line) (choice : Option Nat) (pool : Pool)
    (h : l.foreign reqID) : (readLine reqID l choice pool).1 = none := by
  obtain ⟨hp, hs, hne⟩ := h
  unfold readLine
  dsimp only
  rw [hp]
  dsimp only
  have hid : (unmarshal l (poolGet choice pool).1).ID ≠ reqID := by
    unfold unmarshal
    dsimp only
    cases hl : l.id with
    | none => rw [hl] at hs; cases hs
    | some id =>
      rw [hl] at hne
      simpa using hne
  rw [if_neg hid]

theorem reader_skip (reqID : String) (scanErr : Option String) (pre rest : List Line)
    (choices : List (Option Nat)) (pool : Pool) (h : ∀ x ∈ pre, x.foreign reqID) :
    ∃ pool1, reader reqID scanErr (pre ++ rest) choices pool =
      reader reqID scanErr rest (choices.drop pre.length) pool1 := by
  induction pre generalizing choices pool with
  | nil => exact ⟨pool, rfl⟩
  | cons x pre ih =>
    have hx := readLine_foreign reqID x choices.head?.join pool (h x (List.mem_cons_self _ _))
    obtain ⟨pool1, hp⟩ := ih choices.tail (readLine reqID x choices.head?.join pool).2
      (fun y hy => h y (List.mem_cons_of_mem _ hy))
    refine ⟨pool1, ?_⟩
    have hd : choices.tail.drop pre.length = choices.drop (x :: pre).length := by
      cases choices <;> simp
    rw [← hd, ← hp]
    show reader reqID scanErr (x :: (pre ++ rest)) choices pool = _
    rw [reader]
    split
    · rename_i rr pool2 heq
      rw [heq] at hx
      cases hx
    · rename_i pool2 heq
      rw [heq]

theorem Call_undisturbed (s : ThinkAIService) (env : CallEnv) (method : String)
    (params : Params) (h : Undisturbed s env method params) :
    ∃ r s1, Call s env method params = some r ∧
      r.result = (await s1 env method (generateCacheKey method params)
        (reader (toString env.idClock) env.scanErr env.stdout env.poolChoices
          s.responsePool).1).result ∧
      r.err = (await s1 env method (generateCacheKey method params)
        (reader (toString env.idClock) env.scanErr env.stdout env.poolChoices
          s.responsePool).1).err := by
  obtain ⟨hmiss, hacq, hfree, hinit, hmar, hwrite, _⟩ := h
  unfold Call
  dsimp only
  rw [hmiss, hacq]
  dsimp only
  rw [if_neg (by omega)]
  unfold callBody
  dsimp only
  rw [if_neg (by simp [hinit])]
  cases hm : marshalRequest (buildRequest env method params) with
  | error e => rw [hm] at hmar; cases hmar
  | ok reqJSON =>
    dsimp only
    rw [hwrite]
    exact ⟨_, _, rfl, rfl, rfl⟩

/-! ## Concurrent readers (C1) -/

theorem readLine_response (reqID : String) (l : Line) (choice : Option Nat) (pool : Pool)
    (resp : ThinkResponse) (h : (readLine reqID l choice pool).1 = some (.response resp)) :
    l.parseErr = none ∧ resp.ID = reqID ∧ resp = unmarshal l (poolGet choice pool).1 := by
  unfold readLine at h
  dsimp only at h
  split at h
  · cases h
  · rename_i hp
    split at h
    · rename_i hid
      simp only [Option.some.injEq, ReaderResult.response.injEq] at h
      subst h
      exact ⟨hp, hid, rfl⟩
    · cases h

theorem Readers.step_inv (ids : List String) (stdout0 : List Line) (st : Readers)
    (turn : Nat × Option Nat)
    (hsub : ∀ l ∈ st.stdout, l ∈ stdout0)
    (hsent : ∀ i resp, st.sent.get? i = some (some (.response resp)) →
      ids.get? i = some resp.ID ∧
        ∃ l r0, l ∈ stdout0 ∧ l.parseErr = none ∧ resp = unmarshal l r0) :
    (∀ l ∈ (Readers.step ids st turn).stdout, l ∈ stdout0) ∧
    (∀ i resp, (Readers.step ids st turn).sent.get? i = some (some (.response resp)) →
      ids.get? i = some resp.ID ∧
        ∃ l r0, l ∈ stdout0 ∧ l.parseErr = none ∧ resp = unmarshal l r0) := by
  unfold Readers.step
  split
  · rename_i l rest reqID hout hid hs
    dsimp only
    constructor
    · intro x hx
      exact hsub x (by rw [hout]; exact List.mem_cons_of_mem _ hx)
    · intro i resp hi
      rw [List.get?_eq_getElem?, List.getElem?_set] at hi
      split at hi
      · rename_i heq
        split at hi
        · simp only [Option.some.injEq] at hi
          obtain ⟨hp, hrid, hresp⟩ := readLine_response reqID l turn.2 st.pool resp hi
          refine ⟨?_, l, _, hsub l (by rw [hout]; exact List.mem_cons_self _ _), hp, hresp⟩
          rw [← heq, hid, hrid]
        · cases hi
      · exact hsent i resp (by rw [List.get?_eq_getElem?]; exact hi)
  · exact ⟨hsub, hsent⟩

theorem runReaders_inv (ids : List String) (schedule : List (Nat × Option Nat))
    (stdout : List Line) (pool : Pool) (i : Nat) (resp : ThinkResponse)
    (h : (runReaders ids schedule stdout pool).sent.get? i = some (some (.response resp))) :
    ids.get? i = some resp.ID ∧
      ∃ l r0, l ∈ stdout ∧ l.parseErr = none ∧ resp = unmarshal l r0 := by
  have gen : ∀ (sched : List (Nat × Option Nat)) (st : Readers),
      (∀ l ∈ st.stdout, l ∈ stdout) →
      (∀ i resp, st.sent.get? i = some (some (.response resp)) →
        ids.get? i = some resp.ID ∧
          ∃ l r0, l ∈ stdout ∧ l.parseErr = none ∧ resp = unmarshal l r0) →
      ∀ i resp, (sched.foldl (Readers.step ids) st).sent.get? i = some (some (.response resp)) →
        ids.get? i = some resp.ID ∧
          ∃ l r0, l ∈ stdout ∧ l.parseErr = none ∧ resp = unmarshal l r0 := by
    intro sched
    induction sched with
    | nil => intro st _ hs; exact hs
    | cons t rest ih =>
      intro st hsub hs
      obtain ⟨h1, h2⟩ := Readers.step_inv ids stdout st t hsub hs
      exact ih (Readers.step ids st t) h1 h2
  refine gen schedule _ (fun l hl => hl) ?_ i resp h
  intro j r hj
  rw [List.get?_eq_getElem?, List.getElem?_map] at hj
  cases hids : ids[j]? with
  | none => rw [hids] at hj; cases hj
  | some x => rw [hids] at hj; cases hj

/-- C1, evaluated where it fails: two calls with ids 1000 and 1001 are outstanding, the worker
answers both, and the reader of the second call obtains the first line while the reader
of the first call obtains the second. Each reader drops the line of the other call, so
neither call gets its response and both end by the timer. -/
theorem concurrent_readers_lose_responses :
    concurrentCalls liveService
      [(quietEnv [], "think", []), ({ quietEnv [] with idClock := 1001 }, "think", [])]
      [(1, none), (0, none)]
      [resultLine "1000" (.str "first"), resultLine "1001" (.str "second")]
    = [(.null, some "request timeout"), (.null, some "request timeout")] := by
  decide

theorem concurrentCalls_result_from_own_line (s : ThinkAIService)
    (calls : List (CallEnv × String × Params)) (schedule : List (Nat × Option Nat))
    (stdout : List Line) (i : Nat) (res : JVal)
    (hn : (calls.map fun c => toString c.1.idClock).Nodup)
    (hwf : ∀ l ∈ stdout, l.id.isSome = true)
    (h : (concurrentCalls s calls schedule stdout).get? i = some (res, none)) :
    ∃ c l r0, calls.get? i = some c ∧ l ∈ stdout ∧ l.parseErr = none ∧
      l.id = some (toString c.1.idClock) ∧ res = (unmarshal l r0).Result ∧
      ∀ j c2, j ≠ i → calls.get? j = some c2 → l.id ≠ some (toString c2.1.idClock) := by
  unfold concurrentCalls at h
  dsimp only at h
  rw [List.get?_eq_getElem?, List.getElem?_map, ← List.get?_eq_getElem?] at h
  cases hz : (calls.zip (runReaders (calls.map fun c => toString c.1.idClock) schedule stdout
      s.responsePool).sent).get? i with
  | none => rw [hz] at h; cases h
  | some p =>
    rw [hz] at h
    simp only [Option.map_some', Option.some.injEq, Prod.mk.injEq] at h
    obtain ⟨hres, herr⟩ := h
    rw [List.get?_zip_eq_some] at hz
    obtain ⟨hc, hsent⟩ := hz
    rcases await_cases { s with responsePool := (runReaders (calls.map fun c => toString c.1.idClock)
        schedule stdout s.responsePool).pool } p.1.1 p.1.2.1
        (generateCacheKey p.1.2.1 p.1.2.2) (p.2.getD .silent) with hbad | ⟨resp, hrr, _, _, _, hr, _⟩
    · exact absurd herr hbad.1
    · have hp2 : p.2 = some (.response resp) := by
        cases hp : p.2 with
        | none => rw [hp] at hrr; cases hrr
        | some rr => rw [hp] at hrr; simpa using hrr
      rw [hp2] at hsent
      obtain ⟨hid, l, r0, hl, hparse, hdec⟩ := runReaders_inv _ schedule stdout s.responsePool i resp hsent
      rw [List.get?_eq_getElem?, List.getElem?_map, ← List.get?_eq_getElem?, hc] at hid
      simp only [Option.map_some', Option.some.injEq] at hid
      have hlid : l.id = some resp.ID := by
        have hs := hwf l hl
        cases hli : l.id with
        | none => rw [hli] at hs; cases hs
        | some x => rw [hdec]; simp [unmarshal, hli]
      refine ⟨p.1, l, r0, hc, hl, hparse, by rw [hlid, hid], ?_, ?_⟩
      · rw [← hres, hr, hdec]
      · intro j c2 hji hc2 hcontra
        rw [hlid, ← hid] at hcontra
        have hi' : (calls.map fun c => toString c.1.idClock)[i]? = some (toString p.1.1.idClock) := by
          rw [List.getElem?_map, ← List.get?_eq_getElem?, hc]; rfl
        have hj' : (calls.map fun c => toString c.1.idClock)[j]? = some (toString c2.1.idClock) := by
          rw [List.getElem?_map, ← List.get?_eq_getElem?, hc2]; rfl
        have hlt : i < (calls.map fun c => toString c.1.idClock).length := by
          rcases Nat.lt_or_ge i (calls.map fun c => toString c.1.idClock).length with hlt | hge
          · exact hlt
          · rw [List.getElem?_eq_none hge] at hi'; cases hi'
        have heq : (calls.map fun c => toString c.1.idClock)[i]? =
            (calls.map fun c => toString c.1.idClock)[j]? := by
          rw [hi', hj']
          exact hcontra
        exact hji (List.getElem?_inj hlt hn heq).symm

theorem Readers.step_keeps_sent (ids : List String) (st : Readers) (turn : Nat × Option Nat)
    (i : Nat) (rr : ReaderResult) (h : st.sent.get? i = some (some rr)) :
    (Readers.step ids st turn).sent.get? i = some (some rr) := by
  unfold Readers.step
  split
  · rename_i l rest reqID hout hid hs
    dsimp only
    rw [List.get?_eq_getElem?, List.getElem?_set]
    split
    · rename_i heq
      rw [heq, h] at hs
      cases hs
    · rw [← List.get?_eq_getElem?]
      exact h
  · exact h

theorem Readers.foldl_keeps_sent (ids : List String) (more : List (Nat × Option Nat))
    (st : Readers) (i : Nat) (rr : ReaderResult) (h : st.sent.get? i = some (some rr)) :
    (more.foldl (Readers.step ids) st).sent.get? i = some (some rr) := by
  induction more generalizing st with
  | nil => exact h
  | cons t rest ih => exact ih _ (Readers.step_keeps_sent ids st t i rr h)

theorem Readers.step_delivers (ids : List String) (st : Readers) (i : Nat) (c : Option Nat)
    (l : Line) (rest : List Line) (id : String)
    (hout : st.stdout = l :: rest) (hs : st.sent.get? i = some none)
    (hid : ids.get? i = some id) (hp : l.parseErr = none) (hl : l.id = some id) :
    (Readers.step ids st (i, c)).sent.get? i =
      some (some (.response (unmarshal l (poolGet c st.pool).1))) := by
  unfold Readers.step
  dsimp only
  rw [hout, hid, hs]
  dsimp only
  have hlt : i < st.sent.length := by
    rw [List.get?_eq_getElem?] at hs
    rcases Nat.lt_or_ge i st.sent.length with hlt | hge
    · exact hlt
    · rw [List.getElem?_eq_none hge] at hs; cases hs
  rw [List.get?_eq_getElem?, List.getElem?_set, if_pos rfl, if_pos hlt]
  unfold readLine
  dsimp only
  rw [hp]
  dsimp only
  rw [if_pos (by simp [unmarshal, hl])]

theorem concurrentCalls_get (s : ThinkAIService) (calls : List (CallEnv × String × Params))
    (schedule : List (Nat × Option Nat)) (stdout : List Line) (i : Nat)
    (cl : CallEnv × String × Params) (sent : Option ReaderResult)
    (hc : calls.get? i = some cl)
    (hs : (runReaders (calls.map fun c => toString c.1.idClock) schedule stdout
      s.responsePool).sent.get? i = some sent) :
    ∃ s1, (concurrentCalls s calls schedule stdout).get? i =
      some ((await s1 cl.1 cl.2.1 (generateCacheKey cl.2.1 cl.2.2) (sent.getD .silent)).result,
        (await s1 cl.1 cl.2.1 (generateCacheKey cl.2.1 cl.2.2) (sent.getD .silent)).err) := by
  have hz : (calls.zip (runReaders (calls.map fun c => toString c.1.idClock) schedule stdout
      s.responsePool).sent).get? i = some (cl, sent) := by
    rw [List.get?_zip_eq_some]
    exact ⟨hc, hs⟩
  refine ⟨{ s with responsePool := (runReaders (calls.map fun c => toString c.1.idClock)
    schedule stdout s.responsePool).pool }, ?_⟩
  unfold concurrentCalls
  dsimp only
  rw [List.get?_eq_getElem?, List.getElem?_map, ← List.get?_eq_getElem?, hz]
  rfl

/-- What the readers do get right, when each line is obtained whole by one reader: for
any number of calls outstanding at once with distinct ids, every
order of well-formed response lines and every schedule of the readers: a call that
returns a result returns the result of a record its reader decoded from a line of the
stream that carries the call's own id, a line that carries the id of no other call; and
a call whose own reader is the one that obtains the line carrying its id returns what
that line decodes to, unless its context or timer fires first. A line obtained by the
reader of another call is dropped. -/
theorem concurrent_calls_own_line (s : ThinkAIService)
    (calls : List (CallEnv × String × Params)) (stdout : List Line)
    (hn : (calls.map fun c => toString c.1.idClock).Nodup)
    (hwf : ∀ l ∈ stdout, l.id.isSome = true) :
    (∀ schedule i res, (concurrentCalls s calls schedule stdout).get? i = some (res, none) →
      ∃ c l r0, calls.get? i = some c ∧ l ∈ stdout ∧ l.parseErr = none ∧
        l.id = some (toString c.1.idClock) ∧ res = (unmarshal l r0).Result ∧
        ∀ j c2, j ≠ i → calls.get? j = some c2 → l.id ≠ some (toString c2.1.idClock)) ∧
    (∀ before after i choice cl l rest,
      calls.get? i = some cl →
      (runReaders (calls.map fun c => toString c.1.idClock) before stdout
        s.responsePool).stdout = l :: rest →
      (runReaders (calls.map fun c => toString c.1.idClock) before stdout
        s.responsePool).sent.get? i = some none →
      l.parseErr = none → l.id = some (toString cl.1.idClock) → cl.1.interrupt = none →
      ∃ r0, (concurrentCalls s calls (before ++ (i, choice) :: after) stdout).get? i =
        some (match (unmarshal l r0).Error with
          | none => ((unmarshal l r0).Result, none)
          | some e => (.null, some ("ThinkAI error: " ++ e.Message)))) := by
  constructor
  · intro schedule i res h
    exact concurrentCalls_result_from_own_line s calls schedule stdout i res hn hwf h
  · intro before after i choice cl l rest hc hout hs hp hl hint
    have hid : (calls.map fun c => toString c.1.idClock).get? i = some (toString cl.1.idClock) := by
      rw [List.get?_eq_getElem?, List.getElem?_map, ← List.get?_eq_getElem?, hc]
      rfl
    have h1 := Readers.step_delivers _ _ i choice l rest _ hout hs hid hp hl
    have h2 := Readers.foldl_keeps_sent (calls.map fun c => toString c.1.idClock) after _ i _ h1
    have h3 : (runReaders (calls.map fun c => toString c.1.idClock)
        (before ++ (i, choice) :: after) stdout s.responsePool).sent.get? i
        = some (some (.response (unmarshal l (poolGet choice
            (runReaders (calls.map fun c => toString c.1.idClock) before stdout
              s.responsePool).pool).1))) := by
      unfold runReaders at h2 ⊢
      rw [List.foldl_append, List.foldl_cons]
      exact h2
    obtain ⟨s1, hget⟩ := concurrentCalls_get s calls _ stdout i cl _ hc h3
    refine ⟨(poolGet choice (runReaders (calls.map fun c => toString c.1.idClock) before stdout
      s.responsePool).pool).1, ?_⟩
    rw [hget]
    simp only [Option.getD_some]
    unfold await
    rw [hint]
    dsimp only
    cases hE : (unmarshal l (poolGet choice (runReaders (calls.map fun c => toString c.1.idClock)
      before stdout s.responsePool).pool).1).Error with
    | none => rfl
    | some e => rfl

/-! ## A single call and the lines before its response (C2) -/

/-- C2, evaluated where it fails: the worker emits an error response for another id and
then the success response of this call. When the record that held the first line comes
back from the pool for the second line, which has no error member, the old error stays
in the record and `Call` returns it instead of the result; with a new record for the
second line `Call` returns the result. -/
theorem stale_error_replaces_result :
    (Call liveService
      { quietEnv [errorLine "7" 1 "boom", resultLine "1000" (.str "ok")] with
        poolChoices := [none, some 0] }
      "think" []).map (fun r => (r.result, r.err))
      = some (.null, some "ThinkAI error: boom") ∧
    (Call liveService
      { quietEnv [errorLine "7" 1 "boom", resultLine "1000" (.str "ok")] with
        poolChoices := [none, none] }
      "think" []).map (fun r => (r.result, r.err))
      = some (.str "ok", none) := by
  decide

/-! ## Request ids (C3) -/

/-- C3, evaluated where it fails: two different calls that read the same clock value,
1000, put the same id in their requests. -/
theorem same_clock_same_id :
    (buildRequest (quietEnv []) "think" []).ID =
      (buildRequest (quietEnv []) "generate_code" [("prompt", .str "p")]).ID ∧
    (buildRequest (quietEnv []) "think" []).ID = "1000" := by
  decide

theorem digitChar_value (k : Nat) (h : k < 10) :
    (Nat.digitChar k).toNat - 48 = k ∧ Nat.digitChar k ≠ '-' := by
  interval_cases k <;> decide

theorem toDigitsCore_spec (fuel n : Nat) (ds : List Char) (h : n < fuel) :
    ∃ L, Nat.toDigitsCore 10 fuel n ds = L ++ ds ∧ digitsValue L = n ∧ ∀ c ∈ L, c ≠ '-' := by
  induction fuel generalizing n ds with
  | zero => omega
  | succ fuel ih =>
    have hd := digitChar_value (n % 10) (Nat.mod_lt _ (by decide))
    rw [Nat.toDigitsCore]
    split
    · rename_i h0
      refine ⟨[Nat.digitChar (n % 10)], rfl, ?_, ?_⟩
      · simp only [digitsValue, List.foldl_cons, List.foldl_nil]
        omega
      · intro c hc
        simp only [List.mem_singleton] at hc
        rw [hc]
        exact hd.2
    · rename_i h0
      obtain ⟨L, hL, hv, hm⟩ := ih (n / 10) (Nat.digitChar (n % 10) :: ds) (by omega)
      refine ⟨L ++ [Nat.digitChar (n % 10)], by simp [hL], ?_, ?_⟩
      · simp only [digitsValue, List.foldl_append, List.foldl_cons, List.foldl_nil] at hv ⊢
        rw [hv]
        omega
      · intro c hc
        rcases List.mem_append.mp hc with hc | hc
        · exact hm c hc
        · simp only [List.mem_singleton] at hc
          rw [hc]
          exact hd.2

theorem Nat_repr_spec (n : Nat) :
    digitsValue (Nat.repr n).data = n ∧ ∀ c ∈ (Nat.repr n).data, c ≠ '-' := by
  obtain ⟨L, hL, hv, hm⟩ := toDigitsCore_spec (n + 1) n [] (by omega)
  have : (Nat.repr n).data = L := by
    simp [Nat.repr, Nat.toDigits, hL, List.asString]
  rw [this]
  exact ⟨hv, hm⟩

theorem Int_toString_injective (a b : Int) (h : toString a = toString b) : a = b := by
  have hnat : ∀ x y : Nat, Nat.repr x = Nat.repr y → x = y := by
    intro x y hxy
    rw [← (Nat_repr_spec x).1, ← (Nat_repr_spec y).1, hxy]
  have hmix : ∀ x y : Nat, Nat.repr x ≠ "-" ++ Nat.repr y := by
    intro x y hxy
    have hm := (Nat_repr_spec x).2 '-'
    rw [hxy] at hm
    exact hm (by simp) rfl
  cases a with
  | ofNat x =>
    cases b with
    | ofNat y =>
      have : Nat.repr x = Nat.repr y := h
      rw [hnat x y this]
    | negSucc y =>
      exact absurd h (hmix x (y + 1))
  | negSucc x =>
    cases b with
    | ofNat y =>
      exact absurd h.symm (hmix y (x + 1))
    | negSucc y =>
      have h2 : "-" ++ Nat.repr (x + 1) = "-" ++ Nat.repr (y + 1) := h
      have hd := congrArg String.data h2
      simp only [String.data_append, List.append_cancel_left_eq] at hd
      have := hnat (x + 1) (y + 1) (String.ext hd)
      have hxy : x = y := by omega
      rw [hxy]

/-- C3, amended: the ids two calls place in their requests are the same exactly when the
two calls read the same clock value; whenever the readings differ the ids differ. -/
theorem request_ids_equal_iff_same_clock (env1 env2 : CallEnv) (method1 method2 : String)
    (params1 params2 : Params) :
    (buildRequest env1 method1 params1).ID = (buildRequest env2 method2 params2).ID ↔
      env1.idClock = env2.idClock := by
  constructor
  · intro h
    exact Int_toString_injective _ _ h
  · intro h
    simp only [buildRequest, h]

/-! ## Permits and the request counter over completed calls (C4) -/

theorem await_keeps_counters (s : ThinkAIService) (env : CallEnv) (method cacheKey : String)
    (rr : ReaderResult) :
    (await s env method cacheKey rr).state.semaphore = s.semaphore ∧
    (await s env method cacheKey rr).state.activeRequests = s.activeRequests := by
  unfold await
  split
  · exact ⟨rfl, rfl⟩
  · exact ⟨rfl, rfl⟩
  · split
    · exact ⟨rfl, rfl⟩
    · exact ⟨rfl, rfl⟩
    · split
      · exact ⟨rfl, rfl⟩
      · dsimp only
        split <;> exact ⟨rfl, rfl⟩

theorem callBody_keeps_counters (s : ThinkAIService) (env : CallEnv) (method : String)
    (params : Params) (cacheKey : String) :
    (callBody s env method params cacheKey).state.semaphore = s.semaphore ∧
    (callBody s env method params cacheKey).state.activeRequests = s.activeRequests := by
  unfold callBody
  dsimp only
  split
  · exact ⟨rfl, rfl⟩
  · split
    · exact ⟨rfl, rfl⟩
    · split
      · exact ⟨rfl, rfl⟩
      · exact await_keeps_counters _ env method cacheKey _

theorem Call_keeps_counters (s : ThinkAIService) (env : CallEnv) (method : String)
    (params : Params) (r : CallResult) (h : Call s env method params = some r) :
    r.state.semaphore = s.semaphore ∧ r.state.activeRequests = s.activeRequests := by
  unfold Call at h
  dsimp only at h
  split at h
  · cases h; exact ⟨rfl, rfl⟩
  · split at h
    · cases h; exact ⟨rfl, rfl⟩
    · split at h
      · cases h
      · cases h
        have hb := callBody_keeps_counters
          { s with semaphore := s.semaphore.Acquire, activeRequests := s.activeRequests + 1 }
          env method params (generateCacheKey method params)
        dsimp only at hb ⊢
        constructor
        · rw [hb.1]
          simp [Weighted.Acquire, Weighted.Release]
        · rw [hb.2]
          omega

theorem applyOp_keeps_counters (s t : ThinkAIService) (op : Op) (h : applyOp s op = some t) :
    t.semaphore = s.semaphore ∧ t.activeRequests = s.activeRequests := by
  cases op with
  | call env method params =>
    simp only [applyOp, Option.map_eq_some'] at h
    obtain ⟨r, hr, rfl⟩ := h
    exact Call_keeps_counters s env method params r hr
  | start failure =>
    simp only [applyOp, Option.some.injEq] at h
    subst h
    unfold Initialize
    split
    · exact ⟨rfl, rfl⟩
    · split <;> exact ⟨rfl, rfl⟩
  | stop =>
    simp only [applyOp, Option.map_eq_some'] at h
    obtain ⟨r, hr, rfl⟩ := h
    unfold Shutdown at hr
    split at hr
    · cases hr; exact ⟨rfl, rfl⟩
    · split at hr
      · cases hr
      · cases hr; exact ⟨rfl, rfl⟩

/-- C4: whichever way each `Call` returns (cache hit, failed acquisition, service not
initialised, marshal or write failure, reader error, remote error, success, cancellation,
timer), after any sequence of completed operations the semaphore and the request counter
are what they were before; on a service made by `NewThinkAIService` that is 100 free
permits and `GetActiveRequests` equal to 0. -/
theorem permits_and_counter_restored (s : ThinkAIService) (ops : List Op) (t : ThinkAIService)
    (h : runOps s ops = some t) :
    t.semaphore.available = s.semaphore.available ∧
    GetActiveRequests t = GetActiveRequests s ∧
    (∀ ttl, s = NewThinkAIService ttl →
      t.semaphore.available = 100 ∧ GetActiveRequests t = 0) := by
  have key : t.semaphore = s.semaphore ∧ t.activeRequests = s.activeRequests := by
    induction ops generalizing s with
    | nil =>
      simp only [runOps, Option.some.injEq] at h
      subst h
      exact ⟨rfl, rfl⟩
    | cons op rest ih =>
      simp only [runOps] at h
      split at h
      · rename_i u hu
        have h1 := applyOp_keeps_counters s u op hu
        have h2 := ih u h
        exact ⟨h2.1.trans h1.1, h2.2.trans h1.2⟩
      · cases h
  refine ⟨by rw [key.1], by simp only [GetActiveRequests, key.2], ?_⟩
  intro ttl hs
  subst hs
  simp only [GetActiveRequests, key.1, key.2]
  exact ⟨rfl, rfl⟩

/-! ## Admission under any interleaving (C5) -/

theorem countP_move (p : Pc → Bool) (l : List Pc) (i : Nat) (a b : Pc)
    (h : l.get? i = some a) :
    (l.set i b).countP p + (if p a then 1 else 0) = l.countP p + (if p b then 1 else 0) := by
  rw [List.get?_eq_some] at h
  obtain ⟨hi, ha⟩ := h
  have h1 := List.countP_set p l i b hi
  have h2 := List.boole_getElem_le_countP p l i hi
  have h3 : l[i] = a := by simpa using ha
  rw [h3] at h1 h2
  omega

theorem Sys.move_eq_some (s t : Sys) (i : Nat) (a b : Pc) (h : s.move i a b = some t) :
    s.calls.get? i = some a ∧ t = { s with calls := s.calls.set i b } := by
  unfold Sys.move at h
  split at h
  · rename_i hg
    cases h
    exact ⟨hg, rfl⟩
  · cases h

theorem Sys.inv_init : Sys.init.Inv :=
  ⟨rfl, rfl, by decide, rfl⟩

theorem Sys.inv_step (s t : Sys) (a : Action) (hs : s.Inv) (h : s.step a = some t) : t.Inv := by
  obtain ⟨h1, h2, h3, h4⟩ := hs
  cases a with
  | enter =>
    simp only [Sys.step, Option.some.injEq] at h
    subst h
    exact ⟨h1, by simpa [Pc.holdsPermit] using h2, h3, by simpa [Pc.isCounted] using h4⟩
  | cacheHit i =>
    obtain ⟨hg, rfl⟩ := Sys.move_eq_some _ _ _ _ _ h
    have c1 := countP_move Pc.holdsPermit _ i _ .returned hg
    have c2 := countP_move Pc.isCounted _ i _ .returned hg
    simp [Pc.holdsPermit, Pc.isCounted] at c1 c2
    exact ⟨h1, by simpa [c1] using h2, h3, by simpa [c2] using h4⟩
  | cacheMiss i =>
    obtain ⟨hg, rfl⟩ := Sys.move_eq_some _ _ _ _ _ h
    have c1 := countP_move Pc.holdsPermit _ i _ .waiting hg
    have c2 := countP_move Pc.isCounted _ i _ .waiting hg
    simp [Pc.holdsPermit, Pc.isCounted] at c1 c2
    exact ⟨h1, by simpa [c1] using h2, h3, by simpa [c2] using h4⟩
  | acquireFail i =>
    obtain ⟨hg, rfl⟩ := Sys.move_eq_some _ _ _ _ _ h
    have c1 := countP_move Pc.holdsPermit _ i _ .returned hg
    have c2 := countP_move Pc.isCounted _ i _ .returned hg
    simp [Pc.holdsPermit, Pc.isCounted] at c1 c2
    exact ⟨h1, by simpa [c1] using h2, h3, by simpa [c2] using h4⟩
  | acquire i =>
    simp only [Sys.step] at h
    split at h
    · rename_i hlt
      obtain ⟨hg, rfl⟩ := Sys.move_eq_some _ _ _ _ _ h
      have c1 := countP_move Pc.holdsPermit _ i _ .admitted hg
      have c2 := countP_move Pc.isCounted _ i _ .admitted hg
      simp [Pc.holdsPermit, Pc.isCounted] at c1 c2
      dsimp only at hg c1 c2
      refine ⟨h1, ?_, ?_, ?_⟩
      · simp only [Weighted.Acquire]; omega
      · simp only [Weighted.Acquire]; omega
      · simpa [c2] using h4
    · cases h
  | addOne i =>
    obtain ⟨hg, rfl⟩ := Sys.move_eq_some _ _ _ _ _ h
    have c1 := countP_move Pc.holdsPermit _ i _ .counted hg
    have c2 := countP_move Pc.isCounted _ i _ .counted hg
    simp [Pc.holdsPermit, Pc.isCounted] at c1 c2
    dsimp only at hg c1 c2
    refine ⟨h1, by simpa [c1] using h2, h3, ?_⟩
    dsimp only
    rw [c2, h4]
    push_cast
    rfl
  | write i =>
    obtain ⟨hg, rfl⟩ := Sys.move_eq_some _ _ _ _ _ h
    have c1 := countP_move Pc.holdsPermit _ i _ .written hg
    have c2 := countP_move Pc.isCounted _ i _ .written hg
    simp [Pc.holdsPermit, Pc.isCounted] at c1 c2
    exact ⟨h1, by simpa [c1] using h2, h3, by simpa [c2] using h4⟩
  | leave i =>
    simp only [Sys.step] at h
    split at h
    · rename_i u hu
      cases h
      obtain ⟨hg, rfl⟩ := Sys.move_eq_some _ _ _ _ _ hu
      have c1 := countP_move Pc.holdsPermit _ i _ .uncounted hg
      have c2 := countP_move Pc.isCounted _ i _ .uncounted hg
      simp [Pc.holdsPermit, Pc.isCounted] at c1 c2
      dsimp only at hg c1 c2
      refine ⟨h1, by simpa [c1] using h2, h3, ?_⟩
      dsimp only
      rw [h4, ← c2]
      push_cast
      omega
    · obtain ⟨hg, rfl⟩ := Sys.move_eq_some _ _ _ _ _ h
      have c1 := countP_move Pc.holdsPermit _ i _ .uncounted hg
      have c2 := countP_move Pc.isCounted _ i _ .uncounted hg
      simp [Pc.holdsPermit, Pc.isCounted] at c1 c2
      dsimp only at hg c1 c2
      refine ⟨h1, by simpa [c1] using h2, h3, ?_⟩
      dsimp only
      rw [h4, ← c2]
      push_cast
      omega
  | release i =>
    obtain ⟨hg, rfl⟩ := Sys.move_eq_some _ _ _ _ _ h
    have c1 := countP_move Pc.holdsPermit _ i _ .returned hg
    have c2 := countP_move Pc.isCounted _ i _ .returned hg
    simp [Pc.holdsPermit, Pc.isCounted] at c1 c2
    dsimp only at hg c1 c2
    refine ⟨h1, ?_, ?_, by simpa [c2] using h4⟩
    · simp only [Weighted.Release]; omega
    · simp only [Weighted.Release]; omega

theorem Sys.inv_run (s t : Sys) (acts : List Action) (hs : s.Inv) (h : s.run acts = some t) :
    t.Inv := by
  induction acts generalizing s with
  | nil =>
    simp only [Sys.run, Option.some.injEq] at h
    subst h
    exact hs
  | cons a rest ih =>
    simp only [Sys.run] at h
    split at h
    · rename_i u hu
      exact ih u (Sys.inv_step s u a hs hu) h
    · cases h

theorem countP_isCounted_le (l : List Pc) : l.countP Pc.isCounted ≤ l.countP Pc.holdsPermit := by
  apply List.countP_mono_left
  intro x _ hx
  cases x <;> simp_all [Pc.isCounted, Pc.holdsPermit]

/-- C5: in every state reached from a new service by any interleaving of the steps of any
number of calls, at most 100 calls hold a permit, `GetActiveRequests` lies between 0 and
the number of calls holding a permit, and a call that can write its request to the
worker holds a permit. -/
theorem admission_bounded (acts : List Action) (s : Sys) (h : Sys.init.run acts = some s) :
    s.holders ≤ 100 ∧
    0 ≤ s.GetActiveRequests ∧ s.GetActiveRequests ≤ (s.holders : Int) ∧
    (∀ i t, s.step (.write i) = some t → (s.calls.get? i).map Pc.holdsPermit = some true) := by
  obtain ⟨_, h2, h3, h4⟩ := Sys.inv_run Sys.init s acts Sys.inv_init h
  have h5 := countP_isCounted_le s.calls
  refine ⟨?_, ?_, ?_, ?_⟩
  · unfold Sys.holders; omega
  · unfold Sys.GetActiveRequests; omega
  · unfold Sys.GetActiveRequests Sys.holders; omega
  · intro i t ht
    obtain ⟨hg, _⟩ := Sys.move_eq_some _ _ _ _ _ ht
    rw [hg]
    rfl

/-! ## The cache key does not depend on insertion order -/

theorem sorted_keys_strict (l : Params) (hn : (l.map Prod.fst).Nodup) :
    List.Pairwise (fun a b : String × JVal => a.1.data < b.1.data) (List.insertionSort keyLE l) := by
  have hs : List.Pairwise keyLE (List.insertionSort keyLE l) :=
    @List.sorted_insertionSort _ keyLE _ ⟨fun a b => le_total a.1.data b.1.data⟩
      ⟨fun _ _ _ h1 h2 => le_trans h1 h2⟩ l
  have hp : ((List.insertionSort keyLE l).map Prod.fst).Nodup :=
    ((List.perm_insertionSort keyLE l).map Prod.fst).nodup_iff.mpr hn
  have hne : List.Pairwise (fun a b : String × JVal => a.1 ≠ b.1) (List.insertionSort keyLE l) := by
    rw [List.Nodup, List.pairwise_map] at hp
    exact hp
  refine (hs.and hne).imp ?_
  intro a b hab
  refine lt_of_le_of_ne hab.1 ?_
  intro hd
  exact hab.2 (String.ext hd)

theorem sort_eq_of_perm (p1 p2 : Params) (hperm : p1.Perm p2) (hn : (p1.map Prod.fst).Nodup) :
    List.insertionSort keyLE p1 = List.insertionSort keyLE p2 := by
  have hn2 : (p2.map Prod.fst).Nodup := (hperm.map Prod.fst).nodup_iff.mp hn
  have hp : (List.insertionSort keyLE p1).Perm (List.insertionSort keyLE p2) :=
    ((List.perm_insertionSort keyLE p1).trans hperm).trans (List.perm_insertionSort keyLE p2).symm
  exact @List.eq_of_perm_of_sorted _ (fun a b : String × JVal => a.1.data < b.1.data)
    ⟨fun _ _ h1 h2 => absurd h1 (lt_asymm h2)⟩ _ _ hp
    (sorted_keys_strict p1 hn) (sorted_keys_strict p2 hn2)

theorem generateCacheKey_perm (method : String) (p1 p2 : Params) (hperm : p1.Perm p2)
    (hn : (p1.map Prod.fst).Nodup) :
    generateCacheKey method p1 = generateCacheKey method p2 := by
  unfold generateCacheKey marshalParams
  rw [sort_eq_of_perm p1 p2 hperm hn]

/-! ## A repeated cacheable call (C6) -/

theorem GoCache.Get_of_item (c : GoCache) (k : String) (now : Int) (item : Item)
    (h : c.items k = some item) (hl : ¬ item.expired now) : c.Get k now = some item.Object := by
  unfold GoCache.Get
  rw [h]
  simp [hl]

theorem GoCache.item_of_Get (c : GoCache) (k : String) (now : Int) (v : JVal)
    (h : c.Get k now = some v) : ∃ item, c.items k = some item ∧ item.Object = v := by
  unfold GoCache.Get at h
  split at h
  · cases h
  · rename_i item hi
    split at h
    · cases h
    · cases h
      exact ⟨item, hi, rfl⟩

/-- C6: when a call of a cacheable method has returned `r` without error, a second call
with the same method and a parameter map holding the same entries, inserted in any
order, made while the cache entry is unexpired, returns `r` with a nil error and has no
effect at all: nothing is written to the worker, no permit is acquired, the request
counter is not touched, the service is unchanged. Both calls together write at most one
request, and exactly one when the first call missed the cache. -/
theorem repeated_call_served_from_cache (s s2 : ThinkAIService) (env1 env2 : CallEnv)
    (method : String) (p1 p2 : Params) (r1 : CallResult)
    (hc : isCacheable method = true)
    (hperm : p1.Perm p2) (hn : (p1.map Prod.fst).Nodup)
    (h1 : Call s env1 method p1 = some r1) (hok : r1.err = none)
    (hkeep : s2.cache.items (generateCacheKey method p1) =
      r1.state.cache.items (generateCacheKey method p1))
    (hlive : ∀ item, r1.state.cache.items (generateCacheKey method p1) = some item →
      ¬ item.expired env2.getClock) :
    ∃ r2, Call s2 env2 method p2 = some r2 ∧
      r2.result = r1.result ∧ r2.err = none ∧ r2.trace = [] ∧ r2.state = s2 ∧
      writes (r1.trace ++ r2.trace) ≤ 1 ∧
      (s.cache.Get (generateCacheKey method p1) env1.getClock = none →
        writes (r1.trace ++ r2.trace) = 1) := by
  have hitem : ∃ item, r1.state.cache.items (generateCacheKey method p1) = some item ∧
      item.Object = r1.result ∧ writes r1.trace ≤ 1 ∧
      (s.cache.Get (generateCacheKey method p1) env1.getClock = none → writes r1.trace = 1) := by
    rcases Call_cases s env1 method p1 r1 h1 with ⟨hg, _, hs, ht⟩ | ⟨_, he, _⟩ | ⟨_, _, hcache, hw⟩
    · obtain ⟨item, hi, ho⟩ := GoCache.item_of_Get _ _ _ _ hg
      refine ⟨item, by rw [hs]; exact hi, ho, by simp [ht, writes], ?_⟩
      intro hnone
      rw [hnone] at hg
      cases hg
    · exact absurd hok he
    · rw [if_pos hc] at hcache
      refine ⟨{ Object := r1.result,
                Expiration := if 0 < s.cache.defaultExpiration
                  then env1.setClock + s.cache.defaultExpiration else 0 }, ?_, rfl, by omega,
        fun _ => hw⟩
      rw [hcache]
      simp [GoCache.Set]
  obtain ⟨item, hi, ho, hw1, hw2⟩ := hitem
  have hget : s2.cache.Get (generateCacheKey method p2) env2.getClock = some r1.result := by
    rw [← generateCacheKey_perm method p1 p2 hperm hn, ← ho]
    exact GoCache.Get_of_item _ _ _ item (hkeep.trans hi) (hlive item hi)
  refine ⟨{ result := r1.result, err := none, state := s2, trace := [] }, ?_, rfl, rfl, rfl, rfl,
    ?_, ?_⟩
  · unfold Call
    dsimp only
    rw [hget]
  · simpa [writes] using hw1
  · intro hm
    simpa [writes] using hw2 hm

/-! ## When the cache is written (C7) -/

theorem isCacheable_iff (method : String) :
    isCacheable method = true ↔
      method = "get_intelligence" ∨ method = "search_knowledge" ∨
        method = "get_consciousness_state" := by
  unfold isCacheable
  constructor
  · intro h
    split at h
    · left; assumption
    · split at h
      · right; left; assumption
      · split at h
        · right; right; assumption
        · cases h
  · rintro (h | h | h) <;> simp [h]

theorem GoCache.Set_changes (c : GoCache) (k : String) (v : JVal) (getClock setClock : Int)
    (hmiss : c.Get k getClock = none) (hclock : getClock ≤ setClock) :
    (c.Set k v setClock).items ≠ c.items := by
  intro heq
  have hk := congrFun heq k
  simp only [GoCache.Set, if_true] at hk
  have hg := GoCache.Get_of_item c k getClock _ hk.symm (by
    simp only [Item.expired]
    split <;> omega)
  rw [hmiss] at hg
  cases hg

/-- C7, evaluated where it fails. A cacheable call, `get_intelligence`, on a stream whose
matching response carries no error: when the record that held an error line for another
id comes back from the pool, `Call` returns that old error and leaves the cache without
an entry for the key; and when the matching response has no result member and the record
held the result of a line for another id, `Call` binds the key to that other result. With
a new record for the matching line the key is bound to the result of the response. -/
theorem stale_record_decides_cache_write :
    (Call liveService
      { quietEnv [errorLine "7" 1 "boom", resultLine "1000" (.str "ok")] with
        poolChoices := [none, some 0] }
      "get_intelligence" []).map
        (fun r => (r.err, r.state.cache.items (generateCacheKey "get_intelligence" [])))
      = some (some "ThinkAI error: boom", none) ∧
    (Call liveService
      { quietEnv [resultLine "7" (.str "stale"), bareLine "1000"] with
        poolChoices := [none, some 0] }
      "get_intelligence" []).map
        (fun r => (r.err, r.state.cache.items (generateCacheKey "get_intelligence" [])))
      = some (none, some { Object := .str "stale", Expiration := 0 }) ∧
    (Call liveService
      { quietEnv [errorLine "7" 1 "boom", resultLine "1000" (.str "ok")] with
        poolChoices := [none, none] }
      "get_intelligence" []).map
        (fun r => (r.err, r.state.cache.items (generateCacheKey "get_intelligence" [])))
      = some (none, some { Object := .str "ok", Expiration := 0 }) := by
  decide

/-- What does hold of the cache, in terms of what `Call` returns: `isCacheable` holds
exactly for the three methods of the allow-list, and not for `start_training`,
`stop_training`, `store_knowledge`. A call writes the cache exactly when its method is
cacheable and it returns, without error, a result it got from its reader; the cache is
then the old one with the key of the call bound to the returned result. In every other
case (another method, a cache hit, any error, the timer, a cancellation) the cache is the
one before the call. -/
theorem cache_written_iff_cacheable_success (s : ThinkAIService) (env : CallEnv)
    (method : String) (params : Params) (r : CallResult)
    (h : Call s env method params = some r) :
    (isCacheable method = true ↔
      method = "get_intelligence" ∨ method = "search_knowledge" ∨
        method = "get_consciousness_state") ∧
    (isCacheable "start_training" = false ∧ isCacheable "stop_training" = false ∧
      isCacheable "store_knowledge" = false) ∧
    ((isCacheable method = true ∧ r.err = none ∧
        s.cache.Get (generateCacheKey method params) env.getClock = none) →
      r.state.cache = s.cache.Set (generateCacheKey method params) r.result env.setClock) ∧
    (¬ (isCacheable method = true ∧ r.err = none ∧
        s.cache.Get (generateCacheKey method params) env.getClock = none) →
      r.state.cache = s.cache) ∧
    (env.getClock ≤ env.setClock →
      (r.state.cache.items ≠ s.cache.items ↔
        (isCacheable method = true ∧ r.err = none ∧
          s.cache.Get (generateCacheKey method params) env.getClock = none))) := by
  have hyes : (isCacheable method = true ∧ r.err = none ∧
        s.cache.Get (generateCacheKey method params) env.getClock = none) →
      r.state.cache = s.cache.Set (generateCacheKey method params) r.result env.setClock := by
    rintro ⟨hc, he, hm⟩
    rcases Call_cases s env method params r h with ⟨hg, _⟩ | ⟨_, hne, _⟩ | ⟨_, _, hcache, _⟩
    · rw [hm] at hg; cases hg
    · exact absurd he hne
    · rw [hcache, if_pos hc]
  have hno : ¬ (isCacheable method = true ∧ r.err = none ∧
        s.cache.Get (generateCacheKey method params) env.getClock = none) →
      r.state.cache = s.cache := by
    intro hcond
    rcases Call_cases s env method params r h with ⟨_, _, hs, _⟩ | ⟨_, _, _, hcache, _⟩ |
      ⟨hm, he, hcache, _⟩
    · rw [hs]
    · exact hcache
    · rw [hcache]
      split
      · rename_i hc
        exact absurd ⟨hc, he, hm⟩ hcond
      · rfl
  refine ⟨isCacheable_iff method, ⟨by decide, by decide, by decide⟩, hyes, hno, ?_⟩
  intro hclock
  constructor
  · intro hne
    by_contra hcond
    exact hne (by rw [hno hcond])
  · intro hcond
    rw [hyes hcond]
    exact GoCache.Set_changes _ _ _ _ _ hcond.2.2 hclock

/-! ## Remote errors (C8) -/

/-- C8, as stated, fails: two responses to the same request that differ only in the code
of their error, 1 and 2, make `Call` return the same error, which holds the message and
nothing of the code. -/
theorem error_code_not_carried :
    (Call liveService (quietEnv [errorLine "1000" 1 "boom"]) "think" []).map
        (fun r => (r.result, r.err)) = some (.null, some "ThinkAI error: boom") ∧
    (Call liveService (quietEnv [errorLine "1000" 2 "boom"]) "think" []).map
        (fun r => (r.result, r.err)) = some (.null, some "ThinkAI error: boom") := by
  decide

/-- C8, amended: when the response line of the call, coming after any number of
well-formed lines for other requests, carries an error with code `c` and message `m`,
`Call` returns no result and the error whose text is `ThinkAI error: ` followed by `m`,
whatever `c` is; that error determines `m`. -/
theorem remote_error_carries_message (s : ThinkAIService) (env : CallEnv) (method : String)
    (params : Params) (pre rest : List Line) (l : Line) (c : Int) (m : String)
    (hu : Undisturbed s env method params)
    (hout : env.stdout = pre ++ l :: rest)
    (hpre : ∀ x ∈ pre, x.foreign (toString env.idClock))
    (hp : l.parseErr = none) (hid : l.id = some (toString env.idClock))
    (herr : l.error = .obj (some c) (some m)) :
    ∃ r, Call s env method params = some r ∧ r.result = .null ∧
      r.err = some ("ThinkAI error: " ++ m) ∧
      ∀ m2 : String, "ThinkAI error: " ++ m2 = "ThinkAI error: " ++ m → m2 = m := by
  obtain ⟨r, s1, hr, hres, herr2⟩ := Call_undisturbed s env method params hu
  obtain ⟨pool1, hsk⟩ := reader_skip (toString env.idClock) env.scanErr pre (l :: rest)
    env.poolChoices s.responsePool hpre
  have hint : env.interrupt = none := hu.2.2.2.2.2.2
  rw [hout, hsk] at hres herr2
  rw [reader] at hres herr2
  have hrl : readLine (toString env.idClock) l (List.drop pre.length env.poolChoices).head?.join pool1
      = (some (.response (unmarshal l
          (poolGet (List.drop pre.length env.poolChoices).head?.join pool1).1)),
        (poolGet (List.drop pre.length env.poolChoices).head?.join pool1).2) := by
    unfold readLine
    dsimp only
    rw [hp]
    dsimp only
    rw [if_pos (by simp [unmarshal, hid])]
  rw [hrl] at hres herr2
  dsimp only at hres herr2
  have hE : (unmarshal l (poolGet (List.drop pre.length env.poolChoices).head?.join pool1).1).Error
      = some { Code := c, Message := m } := by
    simp [unmarshal, unmarshalError, herr]
  refine ⟨r, hr, ?_, ?_, ?_⟩
  · rw [hres]
    unfold await
    rw [hint]
    dsimp only
    rw [hE]
  · rw [herr2]
    unfold await
    rw [hint]
    dsimp only
    rw [hE]
  · intro m2 h
    have hd := congrArg String.data h
    simp only [String.data_append, List.append_cancel_left_eq] at hd
    exact String.ext hd

/-! ## Calls on a service that is not initialised (C9) -/

/-- C9, as stated, fails: after a cacheable call was served and the service shut down,
the service is not initialised, and the same call returns the cached result with a nil
error. -/
theorem cached_call_succeeds_after_shutdown :
    ((runOps (NewThinkAIService 0)
        [.start none, .call (quietEnv [resultLine "1000" (.num 42)]) "get_intelligence" [],
          .stop]).bind
      fun s => (Call s (quietEnv []) "get_intelligence" []).map
        fun r => (s.initialized, r.result, r.err, r.trace))
    = some (false, .num 42, none, []) := by
  decide

/-- C9, amended: on a service that is not initialised `Call` writes nothing to the
worker. It returns a nil result and the error `service not initialized` whenever the
cache holds no unexpired entry for the key of the call and the permit is granted; with a
nil error it returns only what the cache holds for that key. -/
theorem not_initialised_call (s : ThinkAIService) (env : CallEnv) (method : String)
    (params : Params) (hinit : s.initialized = false)
    (hfree : s.semaphore.cur < s.semaphore.size) :
    ∃ r, Call s env method params = some r ∧ writes r.trace = 0 ∧
      (s.cache.Get (generateCacheKey method params) env.getClock = none →
        env.acquireErr = none →
        r.result = .null ∧ r.err = some "service not initialized") ∧
      (r.err = none →
        s.cache.Get (generateCacheKey method params) env.getClock = some r.result) := by
  unfold Call
  dsimp only
  cases hg : s.cache.Get (generateCacheKey method params) env.getClock with
  | some v =>
    refine ⟨_, rfl, by simp [writes], ?_, ?_⟩
    · intro h; cases h
    · intro _; rfl
  | none =>
    dsimp only
    cases ha : env.acquireErr with
    | some e =>
      refine ⟨_, rfl, by simp [writes], ?_, ?_⟩
      · intro _ h; cases h
      · intro h; simp at h
    | none =>
      dsimp only
      rw [if_neg (by omega)]
      unfold callBody
      dsimp only
      rw [if_pos hinit]
      refine ⟨_, rfl, by simp [writes], ?_, ?_⟩
      · intro _ _; exact ⟨rfl, rfl⟩
      · intro h; simp at h

/-! ## Unparseable lines (C10) -/

/-- C10, as stated, fails: a line that is not JSON comes before the response of the call;
the reader stops at it and `Call` returns the decoding error, not the result. -/
theorem unparseable_line_ends_reading :
    (Call liveService (quietEnv [garbageLine, resultLine "1000" (.str "ok")]) "think" []).map
      (fun r => (r.result, r.err))
    = some (.null, some "failed to unmarshal response: invalid character") := by
  decide

/-- C10, amended: when a line that cannot be decoded comes after any number of
well-formed lines for other requests, the reader stops at it and `Call` returns no result
and the decoding error, whatever lines follow, the response of the call included. -/
theorem unparseable_line_fails_call (s : ThinkAIService) (env : CallEnv) (method : String)
    (params : Params) (pre rest : List Line) (l : Line) (e : String)
    (hu : Undisturbed s env method params)
    (hout : env.stdout = pre ++ l :: rest)
    (hpre : ∀ x ∈ pre, x.foreign (toString env.idClock))
    (hbad : l.parseErr = some e) :
    ∃ r, Call s env method params = some r ∧ r.result = .null ∧
      r.err = some ("failed to unmarshal response: " ++ e) := by
  obtain ⟨r, s1, hr, hres, herr2⟩ := Call_undisturbed s env method params hu
  obtain ⟨pool1, hsk⟩ := reader_skip (toString env.idClock) env.scanErr pre (l :: rest)
    env.poolChoices s.responsePool hpre
  have hint : env.interrupt = none := hu.2.2.2.2.2.2
  rw [hout, hsk] at hres herr2
  rw [reader] at hres herr2
  have hrl : (readLine (toString env.idClock) l
      (List.drop pre.length env.poolChoices).head?.join pool1)
      = (some (.error ("failed to unmarshal response: " ++ e)),
        poolPut (unmarshal l (poolGet (List.drop pre.length env.poolChoices).head?.join pool1).1)
          (poolGet (List.drop pre.length env.poolChoices).head?.join pool1).2) := by
    unfold readLine
    dsimp only
    rw [hbad]
  rw [hrl] at hres herr2
  dsimp only at hres herr2
  refine ⟨r, hr, ?_, ?_⟩
  · rw [hres]
    unfold await
    rw [hint]
  · rw [herr2]
    unfold await
    rw [hint]

/-! ## The theorems at sample inputs -/

/-- C4 at a sample input: a new service taken through every way `Call` returns. -/
theorem permits_and_counter_restored_witness :
    runOps (NewThinkAIService 0) sampleOps = some sampleFinal ∧
    sampleFinal.semaphore.available = 100 ∧ GetActiveRequests sampleFinal = 0 :=
  ⟨rfl, (permits_and_counter_restored (NewThinkAIService 0) sampleOps sampleFinal rfl).2.2 0 rfl⟩

/-- C5 at a sample input: two calls, one of them past its write. -/
theorem admission_bounded_witness :
    Sys.init.run sampleActions = some sampleSys ∧
    sampleSys.holders ≤ 100 ∧
    0 ≤ sampleSys.GetActiveRequests ∧ sampleSys.GetActiveRequests ≤ (sampleSys.holders : Int) ∧
    (∀ i t, sampleSys.step (.write i) = some t →
      (sampleSys.calls.get? i).map Pc.holdsPermit = some true) :=
  ⟨by decide, admission_bounded sampleActions sampleSys (by decide)⟩

/-- C6 at a sample input: the second call has its entries inserted the other way round
and comes at the very moment the entry is about to expire. -/
theorem repeated_call_served_from_cache_witness :
    Call timedService (quietEnv [resultLine "1000" (.num 42)]) "get_intelligence" paramsAB
      = some sampleFirst ∧
    ∃ r2, Call sampleFirst.state { quietEnv [] with getClock := 6000 } "get_intelligence" paramsBA
        = some r2 ∧
      r2.result = sampleFirst.result ∧ r2.err = none ∧ r2.trace = [] ∧
      r2.state = sampleFirst.state ∧
      writes (sampleFirst.trace ++ r2.trace) ≤ 1 ∧
      (timedService.cache.Get (generateCacheKey "get_intelligence" paramsAB)
          (quietEnv [resultLine "1000" (.num 42)]).getClock = none →
        writes (sampleFirst.trace ++ r2.trace) = 1) :=
  ⟨rfl, repeated_call_served_from_cache timedService sampleFirst.state
    (quietEnv [resultLine "1000" (.num 42)]) { quietEnv [] with getClock := 6000 }
    "get_intelligence" paramsAB paramsBA sampleFirst (by decide) (List.Perm.swap _ _ _)
    (by decide) rfl rfl rfl (by
      intro item hitem
      have h : item = { Object := .num 42, Expiration := 6000 } := by
        have h2 : sampleFirst.state.cache.items (generateCacheKey "get_intelligence" paramsAB)
            = some { Object := .num 42, Expiration := 6000 } := by decide
        rw [h2] at hitem
        exact (Option.some.inj hitem).symm
      subst h
      decide)⟩

/-- The cache after a cacheable call answered by the worker, at a sample input. -/
theorem cache_written_iff_cacheable_success_witness :
    Call timedService (quietEnv [resultLine "1000" (.num 42)]) "get_intelligence" paramsAB
      = some sampleFirst ∧
    sampleFirst.state.cache =
      timedService.cache.Set (generateCacheKey "get_intelligence" paramsAB) sampleFirst.result
        (quietEnv [resultLine "1000" (.num 42)]).setClock :=
  ⟨rfl, (cache_written_iff_cacheable_success timedService
    (quietEnv [resultLine "1000" (.num 42)]) "get_intelligence" paramsAB sampleFirst rfl).2.2.1
    ⟨by decide, rfl, by decide⟩⟩

/-- C8 at a sample input: an error response after a line for another request. -/
theorem remote_error_carries_message_witness :
    Undisturbed liveService (quietEnv [resultLine "7" (.num 1), errorLine "1000" 3 "boom"])
      "think" [] ∧
    ∃ r, Call liveService (quietEnv [resultLine "7" (.num 1), errorLine "1000" 3 "boom"])
        "think" [] = some r ∧
      r.result = .null ∧ r.err = some ("ThinkAI error: " ++ "boom") ∧
      ∀ m2 : String, "ThinkAI error: " ++ m2 = "ThinkAI error: " ++ "boom" → m2 = "boom" :=
  ⟨by decide, remote_error_carries_message liveService
    (quietEnv [resultLine "7" (.num 1), errorLine "1000" 3 "boom"]) "think" []
    [resultLine "7" (.num 1)] [] (errorLine "1000" 3 "boom") 3 "boom"
    (by decide) rfl (by decide) rfl rfl rfl⟩

/-- C9 at a sample input: a call on a service that was never initialised. -/
theorem not_initialised_call_witness :
    (NewThinkAIService 0).initialized = false ∧
    ∃ r, Call (NewThinkAIService 0) (quietEnv []) "think" [] = some r ∧ writes r.trace = 0 ∧
      ((NewThinkAIService 0).cache.Get (generateCacheKey "think" []) (quietEnv []).getClock = none →
        (quietEnv []).acquireErr = none →
        r.result = .null ∧ r.err = some "service not initialized") ∧
      (r.err = none →
        (NewThinkAIService 0).cache.Get (generateCacheKey "think" []) (quietEnv []).getClock
          = some r.result) :=
  ⟨rfl, not_initialised_call (NewThinkAIService 0) (quietEnv []) "think" [] rfl (by decide)⟩

/-- C10 at a sample input: a line that is not JSON between a line for another request and
the response of the call. -/
theorem unparseable_line_fails_call_witness :
    Undisturbed liveService
      (quietEnv [resultLine "7" (.num 1), garbageLine, resultLine "1000" (.str "ok")]) "think" [] ∧
    ∃ r, Call liveService
        (quietEnv [resultLine "7" (.num 1), garbageLine, resultLine "1000" (.str "ok")])
        "think" [] = some r ∧
      r.result = .null ∧
      r.err = some ("failed to unmarshal response: " ++ "invalid character") :=
  ⟨by decide, unparseable_line_fails_call liveService
    (quietEnv [resultLine "7" (.num 1), garbageLine, resultLine "1000" (.str "ok")]) "think" []
    [resultLine "7" (.num 1)] [resultLine "1000" (.str "ok")] garbageLine "invalid character"
    (by decide) rfl (by decide) rfl⟩

/-! ## Shutdown over the life of a service (C11) -/

/-- C11, evaluated where it fails: after Initialize, Shutdown and a second Initialize the
service is initialised and its `shutdownCh` is already closed; the next `Shutdown` closes
it again and panics, so the sequence of four operations does not complete. -/
theorem shutdown_after_reinitialize_panics :
    (runOps (NewThinkAIService 0) [.start none, .stop, .start none]).map
        (fun s => (s.initialized, s.shutdownChClosed, (Shutdown s).isSome))
      = some (true, true, false) ∧
    (runOps (NewThinkAIService 0) [.start none, .stop, .start none, .stop]).isSome = false := by
  decide

/-- What `Shutdown` does get right: whenever it returns it returns nil and leaves the
service not initialised, on a service that is not initialised it returns and changes
nothing, and the first `Shutdown` of an initialised service returns. -/
theorem Shutdown_when_it_returns (s : ThinkAIService) :
    (∀ t e, Shutdown s = some (t, e) → e = none ∧ t.initialized = false) ∧
    (s.initialized = false → Shutdown s = some (s, none)) ∧
    (s.shutdownChClosed = false → (Shutdown s).isSome = true) := by
  refine ⟨?_, ?_, ?_⟩
  · intro t e h
    unfold Shutdown at h
    split at h
    · rename_i hi
      cases h
      exact ⟨rfl, hi⟩
    · split at h
      · cases h
      · cases h
        exact ⟨rfl, rfl⟩
  · intro hi
    simp [Shutdown, hi]
  · intro hc
    unfold Shutdown
    split
    · rfl
    · simp [hc]

/-! ## The rate limiter (C12) -/

theorem window_append (old cur : List Int)
    (hold : ∀ start, old.countP (inWindow start) ≤ 100) (hlen : cur.length ≤ 100)
    (hapart : ∀ o ∈ old, ∀ t ∈ cur, o + minute < t) (start : Int) :
    (old ++ cur).countP (inWindow start) ≤ 100 := by
  rw [List.countP_append]
  by_cases hz : cur.countP (inWindow start) = 0
  · rw [hz]
    exact hold start
  · have hpos : 0 < cur.countP (inWindow start) := Nat.pos_of_ne_zero hz
    obtain ⟨t, ht, htw⟩ := List.countP_pos_iff.mp hpos
    have hzero : old.countP (inWindow start) = 0 := by
      rw [List.countP_eq_zero]
      intro o ho how
      have h1 := hapart o ho t ht
      simp only [inWindow, decide_eq_true_eq] at htw how
      omega
    have hle := List.countP_le_length (inWindow start) (l := cur)
    omega

theorem GoCache.Set_items_self (c : GoCache) (k : String) (x : JVal) (now : Int)
    (httl : c.defaultExpiration = minute) :
    (c.Set k x now).items k = some { Object := x, Expiration := now + minute } := by
  simp [GoCache.Set, httl, minute]

theorem GoCache.Set_items_other (c : GoCache) (k k2 : String) (x : JVal) (now : Int)
    (hne : k2 ≠ k) : (c.Set k x now).items k2 = c.items k2 := by
  simp [GoCache.Set, hne]

theorem LimiterInv.set_other (rl : rateLimiter) (ip k : String) (old cur : List Int) (m now : Int)
    (hinv : LimiterInv rl ip old cur) (hne : k ≠ ip) :
    LimiterInv { requests := rl.requests.Set k (.num m) now } ip old cur := by
  have hi : (rl.requests.Set k (.num m) now).items ip = rl.requests.items ip :=
    GoCache.Set_items_other _ _ _ _ _ (Ne.symm hne)
  refine ⟨hinv.ttl, ?_, hinv.oldOK, hinv.curLen, hinv.apart, ?_, ?_⟩
  · intro k2 item h2
    by_cases hk : k2 = k
    · subst hk
      rw [GoCache.Set_items_self _ _ _ _ hinv.ttl] at h2
      cases h2
      exact ⟨m, rfl⟩
    · rw [GoCache.Set_items_other _ _ _ _ _ hk] at h2
      exact hinv.ints k2 item h2
  · intro h
    exact hinv.fresh (hi ▸ h)
  · intro item h
    exact hinv.entry item (hi ▸ h)

theorem LimiterInv.set_ints (rl : rateLimiter) (ip k : String) (old cur : List Int) (m now : Int)
    (hinv : LimiterInv rl ip old cur) :
    ∀ k2 item, (rl.requests.Set k (.num m) now).items k2 = some item →
      ∃ n : Int, item.Object = .num n := by
  intro k2 item h2
  by_cases hk : k2 = k
  · subst hk
    rw [GoCache.Set_items_self _ _ _ _ hinv.ttl] at h2
    cases h2
    exact ⟨m, rfl⟩
  · rw [GoCache.Set_items_other _ _ _ _ _ hk] at h2
    exact hinv.ints k2 item h2

theorem rateLimiter.handle_inv (rl : rateLimiter) (ip : String) (old cur : List Int)
    (req : Request) (hinv : LimiterInv rl ip old cur) (hgs : req.getClock ≤ req.setClock)
    (hpast : ∀ t ∈ old ++ cur, t ≤ req.getClock) :
    ∃ rl1 v old1 cur1, rl.handle req = some (rl1, v) ∧ LimiterInv rl1 ip old1 cur1 ∧
      old1 ++ cur1 =
        old ++ cur ++ (if req.clientIP = ip ∧ v = .next then [req.getClock] else []) := by
  by_cases hip : req.clientIP = ip
  · -- a request of the client under consideration
    subst hip
    have hnew : ∀ (old1 : List Int), (∀ start, old1.countP (inWindow start) ≤ 100) →
        (∀ o ∈ old1, o + minute < req.getClock) → (∀ o ∈ old1, o ≤ req.getClock) →
        LimiterInv { requests := rl.requests.Set req.clientIP (.num 1) req.setClock }
          req.clientIP old1 [req.getClock] := by
      intro old1 h1 h2 h3
      refine ⟨hinv.ttl, LimiterInv.set_ints rl req.clientIP _ old cur 1 _ hinv, h1, by simp, ?_,
        ?_, ?_⟩
      · intro o ho t ht
        simp only [List.mem_singleton] at ht
        rw [ht]
        exact h2 o ho
      · intro h
        rw [GoCache.Set_items_self _ _ _ _ hinv.ttl] at h
        cases h
      · intro item h
        rw [GoCache.Set_items_self _ _ _ _ hinv.ttl] at h
        cases h
        refine ⟨rfl, by simp, ?_⟩
        intro t ht
        rcases List.mem_append.mp ht with ht | ht
        · have := h3 t ht
          dsimp only
          omega
        · simp only [List.mem_singleton] at ht
          dsimp only
          omega
    cases hitem : rl.requests.items req.clientIP with
    | none =>
      obtain ⟨ho, hc⟩ := hinv.fresh hitem
      subst ho hc
      refine ⟨({ requests := rl.requests.Set req.clientIP (.num 1) req.setClock } : rateLimiter), .next, [], [req.getClock], ?_,
        hnew [] (by simp) (by simp) (by simp), by simp⟩
      simp [rateLimiter.handle, GoCache.Get, hitem]
    | some item =>
      obtain ⟨hobj, hone, hexpiry⟩ := hinv.entry item hitem
      by_cases hexp : item.expired req.getClock
      · -- the entry has expired: a new entry starts
        refine ⟨({ requests := rl.requests.Set req.clientIP (.num 1) req.setClock } : rateLimiter), .next, old ++ cur, [req.getClock], ?_,
          hnew (old ++ cur) ?_ ?_ hpast, by simp⟩
        · simp [rateLimiter.handle, GoCache.Get, hitem, hexp]
        · exact window_append old cur hinv.oldOK hinv.curLen hinv.apart
        · intro o ho
          have h1 := hexpiry o ho
          have h2 := hexp.2
          omega
      · by_cases hfull : (100 : Int) ≤ (cur.length : Int)
        · -- the entry is at 100: the request is aborted
          refine ⟨rl, .abort 429, old, cur, ?_, hinv, by simp⟩
          simp [rateLimiter.handle, GoCache.Get, hitem, hexp, hobj, hfull]
        · -- the entry is below 100: it is counted up
          refine ⟨({ requests := (rl.requests.Set req.clientIP (.num ((cur.length : Int) + 1))
              req.setClock) } : rateLimiter), .next, old, cur ++ [req.getClock], ?_, ?_, by simp⟩
          · simp [rateLimiter.handle, GoCache.Get, hitem, hexp, hobj, hfull]
          · refine ⟨hinv.ttl, LimiterInv.set_ints rl req.clientIP _ old cur _ _ hinv, hinv.oldOK,
              ?_, ?_, ?_, ?_⟩
            · simp only [List.length_append, List.length_singleton]
              omega
            · intro o ho t ht
              rcases List.mem_append.mp ht with ht | ht
              · exact hinv.apart o ho t ht
              · simp only [List.mem_singleton] at ht
                rw [ht]
                obtain ⟨t0, ht0⟩ := List.exists_mem_of_length_pos (by omega : 0 < cur.length)
                have h1 := hinv.apart o ho t0 ht0
                have h2 := hpast t0 (List.mem_append_right _ ht0)
                omega
            · intro h
              rw [GoCache.Set_items_self _ _ _ _ hinv.ttl] at h
              cases h
            · intro item2 h
              rw [GoCache.Set_items_self _ _ _ _ hinv.ttl] at h
              cases h
              refine ⟨by simp, by simp, ?_⟩
              intro t ht
              dsimp only
              rw [← List.append_assoc] at ht
              rcases List.mem_append.mp ht with ht | ht
              · have := hpast t ht
                omega
              · simp only [List.mem_singleton] at ht
                omega
  · -- a request of another client: the entry of `ip` is not touched
    have hne2 : ¬ (req.clientIP = ip ∧ (Verdict.abort 429) = Verdict.next) := fun h => hip h.1
    cases hitem : rl.requests.items req.clientIP with
    | none =>
      refine ⟨({ requests := rl.requests.Set req.clientIP (.num 1) req.setClock } : rateLimiter), .next, old, cur, ?_,
        LimiterInv.set_other rl ip _ old cur 1 _ hinv hip, by simp [hip]⟩
      simp [rateLimiter.handle, GoCache.Get, hitem]
    | some item =>
      obtain ⟨n, hobj⟩ := hinv.ints _ item hitem
      by_cases hexp : item.expired req.getClock
      · refine ⟨({ requests := rl.requests.Set req.clientIP (.num 1) req.setClock } : rateLimiter), .next, old, cur, ?_,
          LimiterInv.set_other rl ip _ old cur 1 _ hinv hip, by simp [hip]⟩
        simp [rateLimiter.handle, GoCache.Get, hitem, hexp]
      · by_cases hfull : (100 : Int) ≤ n
        · refine ⟨rl, .abort 429, old, cur, ?_, hinv, by simp [hip]⟩
          simp [rateLimiter.handle, GoCache.Get, hitem, hexp, hobj, hfull]
        · refine ⟨({ requests := rl.requests.Set req.clientIP (.num (n + 1)) req.setClock } :
              rateLimiter), .next, old, cur, ?_,
            LimiterInv.set_other rl ip _ old cur (n + 1) _ hinv hip, by simp [hip]⟩
          simp [rateLimiter.handle, GoCache.Get, hitem, hexp, hobj, hfull]

theorem rateLimiter.serve_inv (ip : String) (reqs : List Request) (rl : rateLimiter)
    (old cur : List Int) (hinv : LimiterInv rl ip old cur)
    (hmono : (clockReadings reqs).Pairwise (· ≤ ·))
    (hpast : ∀ t ∈ old ++ cur, ∀ c ∈ clockReadings reqs, t ≤ c) :
    ∃ rl2 vs, rl.serve reqs = some (rl2, vs) ∧ vs.length = reqs.length ∧
      ∀ start, (old ++ cur ++ passedAt ip reqs vs).countP (inWindow start) ≤ 100 := by
  induction reqs generalizing rl old cur with
  | nil =>
    refine ⟨rl, [], rfl, rfl, ?_⟩
    intro start
    simpa [passedAt] using window_append old cur hinv.oldOK hinv.curLen hinv.apart start
  | cons req rest ih =>
    simp only [clockReadings, List.pairwise_cons, List.mem_cons, forall_eq_or_imp] at hmono hpast
    obtain ⟨⟨hgs, hgc⟩, ⟨hsc, hrest⟩⟩ := hmono
    obtain ⟨rl1, v, old1, cur1, hh, hinv1, happ⟩ :=
      rateLimiter.handle_inv rl ip old cur req hinv hgs (fun t ht => (hpast t ht).1)
    have hpast1 : ∀ t ∈ old1 ++ cur1, ∀ c ∈ clockReadings rest, t ≤ c := by
      intro t ht c hc
      rw [happ] at ht
      rcases List.mem_append.mp ht with ht | ht
      · exact (hpast t ht).2.2 c hc
      · split at ht
        · simp only [List.mem_singleton] at ht
          rw [ht]
          exact hgc c hc
        · cases ht
    obtain ⟨rl2, vs, hs, hl, hw⟩ := ih rl1 old1 cur1 hinv1 hrest hpast1
    refine ⟨rl2, v :: vs, ?_, by simp [hl], ?_⟩
    · simp only [rateLimiter.serve, hh, hs]
    · intro start
      have := hw start
      rw [happ] at this
      simpa [passedAt, List.append_assoc] using this

theorem LimiterInv.init (ip : String) : LimiterInv RateLimiter ip [] [] := by
  refine ⟨by decide, ?_, by simp, by simp, by simp, fun _ => ⟨rfl, rfl⟩, ?_⟩
  · intro k item h
    cases h
  · intro item h
    cases h

/-- C12: on a sequence of requests with non-decreasing clock readings the limiter, started
by `RateLimiter`, handles every request, and for every client IP it passes at most 100 of
that client's requests to the next handler within any interval of one minute. A request
that finds the entry of its IP unexpired and equal to 100 is aborted with status 429 and
leaves the limiter as it was; a request that is passed on leaves the entry of its IP
expiring one minute after the clock reading of its `Set`, its arrival. -/
theorem rate_limiter_bound (reqs : List Request) (ip : String)
    (hmono : (clockReadings reqs).Pairwise (· ≤ ·)) :
    (∃ rl vs, RateLimiter.serve reqs = some (rl, vs) ∧ vs.length = reqs.length ∧
      ∀ start, (passedAt ip reqs vs).countP (inWindow start) ≤ 100) ∧
    (∀ (rl : rateLimiter) (req : Request) (item : Item),
      rl.requests.items req.clientIP = some item → item.Object = .num 100 →
      ¬ item.expired req.getClock → rl.handle req = some (rl, .abort 429)) ∧
    (∀ (rl rl1 : rateLimiter) (req : Request),
      rl.requests.defaultExpiration = minute → rl.handle req = some (rl1, .next) →
      ∃ n : Int, rl1.requests.items req.clientIP =
        some { Object := .num n, Expiration := req.setClock + minute }) := by
  refine ⟨?_, ?_, ?_⟩
  · obtain ⟨rl, vs, h1, h2, h3⟩ :=
      rateLimiter.serve_inv ip reqs RateLimiter [] [] (LimiterInv.init ip) hmono (by simp)
    exact ⟨rl, vs, h1, h2, by simpa using h3⟩
  · intro rl req item hitem hobj hexp
    simp [rateLimiter.handle, GoCache.Get, hitem, hexp, hobj]
  · intro rl rl1 req httl hh
    unfold rateLimiter.handle at hh
    split at hh
    · cases hh
      exact ⟨1, GoCache.Set_items_self _ _ _ _ httl⟩
    · split at hh
      · cases hh
      · cases hh
        exact ⟨_, GoCache.Set_items_self _ _ _ _ httl⟩
    · cases hh

set_option maxRecDepth 100000 in
/-- C12 at a sample input: 101 requests of one client at the same instant; the first 100
are passed on, the last one is aborted with status 429. -/
theorem rate_limiter_bound_witness :
    (clockReadings (burst "10.0.0.1" 5 101)).Pairwise (· ≤ ·) ∧
    (RateLimiter.serve (burst "10.0.0.1" 5 101)).map (fun r => r.2.drop 99)
      = some [.next, .abort 429] ∧
    ∃ rl vs, RateLimiter.serve (burst "10.0.0.1" 5 101) = some (rl, vs) ∧
      vs.length = (burst "10.0.0.1" 5 101).length ∧
      ∀ start, (passedAt "10.0.0.1" (burst "10.0.0.1" 5 101) vs).countP (inWindow start) ≤ 100 :=
  ⟨by decide, by decide, (rate_limiter_bound (burst "10.0.0.1" 5 101) "10.0.0.1" (by decide)).1⟩

end ThinkAI
